import Mathlib

/-!
Shallow embedding of the `ray_tracing` repository's rendering core
(`src/renderer.rs`, `src/main.rs`).  `f32` scalars are idealised as real
numbers; the `glam` vector/quaternion library operations used by the code
(componentwise arithmetic, dot products, `length`, `normalize`,
`angle_between`, quaternion rotation and the affine
scale-rotation-translation transform applied by `project_point3`) are
embedded as the corresponding real-valued functions.
-/

namespace RayTracing

/-- `glam::Vec3`, with `f32` components idealised as reals. -/
@[ext] structure Vec3 where
  x : ℝ
  y : ℝ
  z : ℝ

/-- `glam::Vec4` (RGBA color), with `f32` components idealised as reals. -/
@[ext] structure Vec4 where
  x : ℝ
  y : ℝ
  z : ℝ
  w : ℝ

/-- `glam::Quat`, with `f32` components idealised as reals. -/
structure Quat where
  x : ℝ
  y : ℝ
  z : ℝ
  w : ℝ

/-- `glam::Quat::default()`: the identity quaternion. -/
def Quat.identity : Quat := ⟨0, 0, 0, 1⟩

noncomputable instance : Add Vec3 := ⟨fun a b => ⟨a.x + b.x, a.y + b.y, a.z + b.z⟩⟩
noncomputable instance : Sub Vec3 := ⟨fun a b => ⟨a.x - b.x, a.y - b.y, a.z - b.z⟩⟩
noncomputable instance : Mul Vec3 := ⟨fun a b => ⟨a.x * b.x, a.y * b.y, a.z * b.z⟩⟩
noncomputable instance : Div Vec3 := ⟨fun a b => ⟨a.x / b.x, a.y / b.y, a.z / b.z⟩⟩
noncomputable instance : SMul ℝ Vec3 := ⟨fun s v => ⟨s * v.x, s * v.y, s * v.z⟩⟩
noncomputable instance : Zero Vec3 := ⟨⟨0, 0, 0⟩⟩

noncomputable instance : Add Vec4 := ⟨fun a b => ⟨a.x + b.x, a.y + b.y, a.z + b.z, a.w + b.w⟩⟩
noncomputable instance : SMul ℝ Vec4 := ⟨fun s v => ⟨s * v.x, s * v.y, s * v.z, s * v.w⟩⟩
noncomputable instance : HMul Vec4 ℝ Vec4 := ⟨fun v s => ⟨v.x * s, v.y * s, v.z * s, v.w * s⟩⟩
noncomputable instance : Zero Vec4 := ⟨⟨0, 0, 0, 0⟩⟩

/-- `glam::Vec4::min`: componentwise minimum. -/
noncomputable def Vec4.min (a b : Vec4) : Vec4 :=
  ⟨Min.min a.x b.x, Min.min a.y b.y, Min.min a.z b.z, Min.min a.w b.w⟩

/-- `glam::Vec3::dot`. -/
noncomputable def Vec3.dot (a b : Vec3) : ℝ := a.x * b.x + a.y * b.y + a.z * b.z

/-- `glam::Vec3::length_squared`. -/
noncomputable def Vec3.length_squared (v : Vec3) : ℝ := v.dot v

/-- `glam::Vec3::length`. -/
noncomputable def Vec3.length (v : Vec3) : ℝ := Real.sqrt v.length_squared

/-- `glam::Vec3::normalize`: `self * length.recip()` (for the zero vector the
real-valued idealisation yields the zero vector, where IEEE arithmetic
yields NaN components; every use in the code immediately feeds the result
into a `<` comparison through `angle_between`, which is `False` in both
semantics, see the degenerate-lighting theorem). -/
noncomputable def Vec3.normalize (v : Vec3) : Vec3 := (1 / v.length) • v

/-- `glam::Vec3::distance`. -/
noncomputable def Vec3.distance (a b : Vec3) : ℝ := (a - b).length

/-- `glam::Vec3::angle_between`:
`acos(dot / sqrt(length_squared * length_squared))` (glam clamps the
argument of `acos` into `[-1, 1]`, exactly as `Real.arccos` does). -/
noncomputable def Vec3.angle_between (a b : Vec3) : ℝ :=
  Real.arccos (a.dot b / Real.sqrt (a.length_squared * b.length_squared))

/-- `glam::Vec3::powf`: componentwise `f32::powf`. -/
noncomputable def Vec3.powf (v : Vec3) (e : ℝ) : Vec3 :=
  ⟨Real.rpow v.x e, Real.rpow v.y e, Real.rpow v.z e⟩

/-- Rotation of a vector by a quaternion, as performed by the rotation part
of `glam::Mat4::from_scale_rotation_translation` (the standard 3×3 rotation
matrix built from the quaternion's components). -/
noncomputable def Quat.rotate (q : Quat) (v : Vec3) : Vec3 :=
  ⟨(1 - 2 * (q.y ^ 2 + q.z ^ 2)) * v.x + (2 * (q.x * q.y - q.w * q.z)) * v.y +
      (2 * (q.x * q.z + q.w * q.y)) * v.z,
    (2 * (q.x * q.y + q.w * q.z)) * v.x + (1 - 2 * (q.x ^ 2 + q.z ^ 2)) * v.y +
      (2 * (q.y * q.z - q.w * q.x)) * v.z,
    (2 * (q.x * q.z - q.w * q.y)) * v.x + (2 * (q.y * q.z + q.w * q.x)) * v.y +
      (1 - 2 * (q.x ^ 2 + q.y ^ 2)) * v.z⟩

/-- Application of `glam::Mat4::from_scale_rotation_translation(scale, rotation,
translation)` to a point via `project_point3`: the matrix is affine with last
row `(0,0,0,1)`, so the perspective divide is by `1` and the result is
`rotate(scale * p) + translation`. -/
noncomputable def srtProject (scale : Vec3) (rotation : Quat) (translation : Vec3) (p : Vec3) : Vec3 :=
  rotation.rotate (scale * p) + translation

/-- `Ray` (renderer.rs): origin position + direction. -/
structure Ray where
  position : Vec3
  direction : Vec3

/-- `Ray::get_point`. -/
noncomputable def Ray.get_point (r : Ray) (t : ℝ) : Vec3 := r.position + t • r.direction

/-- `Sphere` (renderer.rs). -/
structure Sphere where
  position : Vec3
  radius : ℝ

/-- `Sphere::intersect` (renderer.rs, lines 85–110), translated clause by
clause: quadratic coefficients via componentwise `powf(2.0)` and sums, the
discriminant `b² - 4ac`, and on a nonnegative discriminant the smaller of the
two roots `(-b ± sqrt(disc)) / 2 * a` (division by `2` before multiplication
by `a`, as in the source), with no sign filtering of the result. -/
noncomputable def Sphere.intersect (s : Sphere) (ray : Ray) : Option ℝ :=
  let a3 := ray.direction.powf 2
  let b3 := ((2 : ℝ) • ray.direction) * (ray.position - s.position)
  let c3 := ray.position.powf 2 + s.position.powf 2 -
    ((2 : ℝ) • ray.position) * s.position
  let a := a3.x + a3.y + a3.z
  let b := b3.x + b3.y + b3.z
  let c := c3.x + c3.y + c3.z - Real.rpow s.radius 2
  let partial_t := Real.rpow b 2 - 4 * a * c
  if partial_t < 0 then
    none
  else
    let partial_t_sqrt := Real.sqrt partial_t
    let t1 := (-b + partial_t_sqrt) / 2 * a
    let t2 := (-b - partial_t_sqrt) / 2 * a
    some (Min.min t1 t2)

/-- `Sphere::get_normal`. -/
noncomputable def Sphere.get_normal (s : Sphere) (point : Vec3) : Vec3 :=
  (point - s.position).normalize

/-- The `Shape` trait, as the closed set of its implementors (`Sphere`). -/
inductive Shape where
  | sphere (s : Sphere)

/-- Dynamic dispatch of `Shape::intersect`. -/
noncomputable def Shape.intersect : Shape → Ray → Option ℝ
  | .sphere s, ray => s.intersect ray

/-- Dynamic dispatch of `Shape::get_normal`. -/
noncomputable def Shape.get_normal : Shape → Vec3 → Vec3
  | .sphere s, point => s.get_normal point

/-- `SpotLight` (renderer.rs). -/
structure SpotLight where
  position : Vec3
  intensity : ℝ

/-- `DirectionalLight` (renderer.rs). -/
structure DirectionalLight where
  direction : Vec3
  intensity : ℝ

/-- The `Light` trait, as the closed set of its implementors. -/
inductive Light where
  | spot (l : SpotLight)
  | directional (l : DirectionalLight)

/-- `Light::get_light_ray`, dispatching to the `SpotLight` and
`DirectionalLight` implementations (renderer.rs, lines 19–27 and 49–57). -/
noncomputable def Light.get_light_ray : Light → Vec3 → Vec3 → Option Ray
  | .spot l, point, normal =>
    let light_normal := (l.position - point).normalize
    if light_normal.angle_between normal < Real.pi / 2 then
      some ⟨point, light_normal⟩
    else none
  | .directional l, point, normal =>
    let light_normal := (-1 : ℝ) • l.direction
    if light_normal.angle_between normal < Real.pi / 2 then
      some ⟨point, light_normal⟩
    else none

/-- `Light::check_shadow` (renderer.rs, lines 29–31 and 59–61). -/
noncomputable def Light.check_shadow : Light → Vec3 → Vec3 → Prop
  | .spot l, point, intersected_point =>
    l.position.distance point > intersected_point.distance point
  | .directional _, _, _ => True

/-- `Light::intensity` (renderer.rs, lines 33–39 and 63–68). -/
noncomputable def Light.intensity : Light → Vec3 → Vec3 → ℝ
  | .spot l, point, normal =>
    let by_distance := l.intensity / Real.sqrt (l.position - point).length
    let by_angle := 1 - (l.position - point).angle_between normal / (Real.pi / 2)
    by_distance * by_angle
  | .directional l, _, normal =>
    let by_angle := 1 - ((-1 : ℝ) • l.direction).angle_between normal / (Real.pi / 2)
    l.intensity * by_angle

/-- `Material` (renderer.rs). -/
structure Material where
  color : Vec4

/-- `Camera` (renderer.rs). -/
structure Camera where
  position : Vec3
  rotation : Quat
  fov_y : ℝ
  near_z : ℝ

/-- `Scene` (renderer.rs): object triples `(entity_id, shape, material)`,
lights, camera. -/
structure Scene where
  objects : List (ℕ × Shape × Material)
  lights : List Light
  camera : Camera

/-- The body of the closure `intersect_ray` maps over `scene.objects`
(renderer.rs, lines 267–279): skip the excluded id, intersect, keep only
hits with `t >= 0.0`. -/
noncomputable def candidate (ray : Ray) (exclude_id : Option ℕ)
    (obj : ℕ × Shape × Material) : Option (ℝ × ℕ × Shape × Material) :=
  if exclude_id = some obj.1 then none
  else
    match obj.2.1.intersect ray with
    | some t => if 0 ≤ t then some (t, obj.1, obj.2.1, obj.2.2) else none
    | none => none

/-- One step of `Iterator::min_by` with `f32::total_cmp` on the hit distance:
the accumulator is replaced only on a strictly smaller distance, so the first
of equal minima wins (`cmp::min_by` keeps the accumulator on `Equal`). -/
noncomputable def minStep (acc : Option (ℝ × ℕ × Shape × Material))
    (c : ℝ × ℕ × Shape × Material) : Option (ℝ × ℕ × Shape × Material) :=
  match acc with
  | none => some c
  | some b => if c.1 < b.1 then some c else some b

/-- `Iterator::min_by` with `f32::total_cmp` on the hit distance, as used by
`intersect_ray`. -/
noncomputable def minByDist (l : List (ℝ × ℕ × Shape × Material)) :
    Option (ℝ × ℕ × Shape × Material) :=
  l.foldl minStep none

/-- `intersect_ray` (renderer.rs, lines 265–281). -/
noncomputable def intersect_ray (scene : Scene) (ray : Ray)
    (exclude_id : Option ℕ) : Option (ℝ × ℕ × Shape × Material) :=
  minByDist (scene.objects.filterMap (candidate ray exclude_id))

/-- The scan `intersect_ray` performs over the raw object list: `candidate`
fused into the `min_by` step (one object considered per step). -/
noncomputable def scanStep (ray : Ray) (exclude_id : Option ℕ)
    (acc : Option (ℝ × ℕ × Shape × Material)) (obj : ℕ × Shape × Material) :
    Option (ℝ × ℕ × Shape × Material) :=
  match candidate ray exclude_id obj with
  | none => acc
  | some c => minStep acc c

open Classical in
/-- The per-light closure inside `trace_ray` (renderer.rs, lines 228–248):
obtain the light ray, run the occlusion search with the hit object's id
excluded, consult `check_shadow` (`has_light` is its negation when an
occluder exists), and contribute `intensity * material.color` when lit. -/
noncomputable def lightContrib (scene : Scene) (point normal : Vec3)
    (entity_id : ℕ) (material : Material) (light : Light) : Option Vec4 :=
  match light.get_light_ray point normal with
  | some lray =>
    let has_light :=
      match intersect_ray scene lray (some entity_id) with
      | some (t, _, _, _) => ¬light.check_shadow point (lray.get_point t)
      | none => True
    if has_light then some (light.intensity point normal • material.color)
    else none
  | none => none

/-- `trace_ray` (renderer.rs, lines 220–262): nearest intersection with no
exclusion, direct-lighting sum over the lights, a mirror-reflection recursion
scaled by `0.5` when `max_bounce != 0`, and a componentwise upper clamp
against `(1,1,1,1)`. -/
noncomputable def trace_ray (scene : Scene) (ray : Ray) (max_bounce : ℕ) : Vec4 :=
  match intersect_ray scene ray none with
  | some (t, entity_id, shape, material) =>
    let point := ray.get_point t
    let normal := shape.get_normal point
    let intensity :=
      (scene.lights.filterMap
        (lightContrib scene point normal entity_id material)).foldl (· + ·) (0 : Vec4)
    let intensity :=
      match max_bounce with
      | 0 => intensity
      | n + 1 =>
        let direction := ray.direction - (2 * ray.direction.dot normal) • normal
        intensity + trace_ray scene ⟨point, direction⟩ n * (0.5 : ℝ)
    intensity.min ⟨1, 1, 1, 1⟩
  | none => 0

/-- `glam::Vec2` with real components. -/
structure Vec2 where
  x : ℝ
  y : ℝ

/-- `get_cursor_world_position` (renderer.rs, lines 128–150). -/
noncomputable def get_cursor_world_position (cursor_position : Vec2)
    (camera : Camera) (screen_size : Vec2) (z_depth : ℝ) : Vec3 :=
  let scale := Real.arctan camera.fov_y * camera.near_z
  let scaleV : Vec3 := ⟨scale, scale, 1⟩
  let pixel_position :=
    (⟨cursor_position.x - screen_size.x / 2,
      (cursor_position.y - screen_size.y / 2) * (-1), 0.1⟩ : Vec3) /
      ⟨screen_size.y, screen_size.y, 1⟩
  let pixel_world_position := srtProject scaleV camera.rotation camera.position pixel_position
  let direction := (pixel_world_position - camera.position).normalize
  (z_depth - camera.position.distance pixel_position) • direction

/-- The ray `render` builds for pixel `(x, y)` of a `W×H` buffer
(renderer.rs, lines 193–204). -/
noncomputable def pixelRay (camera : Camera) (W H : ℕ) (x y : ℕ) : Ray :=
  let scale := Real.arctan camera.fov_y * camera.near_z
  let scaleV : Vec3 := ⟨scale, scale, 1⟩
  let pixel_position :=
    (⟨(x : ℝ) - (W : ℝ) / 2, ((y : ℝ) - (H : ℝ) / 2) * (-1), camera.near_z⟩ : Vec3) /
      ⟨(H : ℝ), (H : ℝ), 1⟩
  let pixel_world_position := srtProject scaleV camera.rotation camera.position pixel_position
  ⟨pixel_world_position, (pixel_world_position - camera.position).normalize⟩

/-- The ray list `render` generates: `y` outer loop over `0..H`, `x` inner
loop over `0..W` (renderer.rs, lines 193–204). -/
noncomputable def genRays (scene : Scene) (W H : ℕ) : List Ray :=
  (List.range H).flatMap (fun y => (List.range W).map (fun x => pixelRay scene.camera W H x y))

/-- Rust's `expr as u8` cast from `f32`, per the language's documented
semantics: truncate toward zero and saturate to `[0, 255]`, with NaN
(represented here by `none`) mapped to `0`. -/
noncomputable def f32toU8 : Option ℝ → ℕ
  | none => 0
  | some x => if x < 0 then 0 else if 255 < x then 255 else Int.toNat ⌊x⌋

/-- The four byte stores one iteration of `render`'s output loop performs for
pixel index `i` (renderer.rs, lines 206–216): `buffer[4i + k] = channel as u8`
in R,G,B,A order. -/
noncomputable def writePixel (buffer : List ℕ) (i : ℕ) (color : Vec4) : List ℕ :=
  ((((buffer.set (i * 4) (f32toU8 (some color.x))).set (i * 4 + 1)
      (f32toU8 (some color.y))).set (i * 4 + 2)
      (f32toU8 (some color.z))).set (i * 4 + 3) (f32toU8 (some color.w)))

/-- `render` (renderer.rs, lines 179–217): generate the rays, then for each
enumerated ray trace with `max_bounce = 3`, scale the color by `255.0` and
store the four bytes. -/
noncomputable def render (scene : Scene) (W H : ℕ) (buffer : List ℕ) : List ℕ :=
  (genRays scene W H).enum.foldl
    (fun buf ir => writePixel buf ir.1 (trace_ray scene ir.2 3 * (255 : ℝ))) buffer

/-- The ordered sequence of `(index, value)` byte writes `render` performs on
the buffer: each enumerated ray contributes its four stores in order. -/
noncomputable def renderWrites (scene : Scene) (W H : ℕ) : List (ℕ × ℕ) :=
  (genRays scene W H).enum.flatMap
    (fun ir =>
      let color := trace_ray scene ir.2 3 * (255 : ℝ)
      [(ir.1 * 4, f32toU8 (some color.x)), (ir.1 * 4 + 1, f32toU8 (some color.y)),
        (ir.1 * 4 + 2, f32toU8 (some color.z)), (ir.1 * 4 + 3, f32toU8 (some color.w))])

/-- `simple_scene` (main.rs, lines 76–119), with the object ids exactly as
pushed by the source. -/
noncomputable def simple_scene (cursor_position : Vec2) (screen_size : Vec2) : Scene :=
  let camera : Camera := ⟨⟨0, 0, 0⟩, Quat.identity, 90 / 360 * Real.pi, 0.1⟩
  let blue_material : Material := ⟨⟨0, 0.4, 1, 1⟩⟩
  let orange_material : Material := ⟨⟨1, 0.7, 0.2, 1⟩⟩
  let green_material : Material := ⟨⟨0.4, 1, 0.6, 1⟩⟩
  let white_material : Material := ⟨⟨1, 1, 1, 1⟩⟩
  let objects : List (ℕ × Shape × Material) :=
    [(0, Shape.sphere ⟨⟨2, 2, 100⟩, 40⟩, white_material),
      (0, Shape.sphere ⟨⟨2, 2, 10⟩, 1⟩, blue_material),
      (1, Shape.sphere ⟨⟨-2, 2, 10⟩, 1⟩, orange_material),
      (2, Shape.sphere ⟨⟨6, -3, 15⟩, 0.7⟩, orange_material),
      (3, Shape.sphere ⟨⟨3, -5, 15⟩, 0.7⟩, white_material),
      (4, Shape.sphere ⟨⟨0, 0, 15⟩, 0.7⟩, blue_material),
      (5, Shape.sphere ⟨⟨-3, -5, 15⟩, 0.7⟩, green_material),
      (6, Shape.sphere ⟨⟨-6, -3, 15⟩, 0.7⟩, orange_material)]
  let cursor_world := get_cursor_world_position cursor_position camera screen_size 10
  let lights : List Light :=
    [Light.spot ⟨cursor_world, 1⟩,
      Light.spot ⟨⟨0, 5, 10⟩, 1⟩,
      Light.directional ⟨⟨1, 0.5, 5⟩, 1⟩]
  ⟨objects, lights, camera⟩

/-- Spec-side qualifying-hit predicate (spec §4.4): the object at position `k`
of the scan is not the excluded id, its `intersect` returns distance `t`, and
`t` is not negative. -/
noncomputable def Qualifies (scene : Scene) (ray : Ray) (exclude_id : Option ℕ)
    (k : ℕ) (t : ℝ) (eid : ℕ) (sh : Shape) (mat : Material) : Prop :=
  scene.objects[k]? = some (eid, sh, mat) ∧ exclude_id ≠ some eid ∧
    sh.intersect ray = some t ∧ 0 ≤ t

open Classical in
/-- Spec-side per-light direct contribution (spec §4.5 step 3), written as a
total function into colors: no light ray means no contribution, an occluder
confirmed by `check_shadow` means no contribution, otherwise the light
contributes `intensity(point, normal) * material.color`. -/
noncomputable def specLightContrib (scene : Scene) (point normal : Vec3)
    (entity_id : ℕ) (material : Material) (light : Light) : Vec4 :=
  match light.get_light_ray point normal with
  | none => 0
  | some lray =>
    match intersect_ray scene lray (some entity_id) with
    | some (t, _, _, _) =>
      if light.check_shadow point (lray.get_point t) then 0
      else light.intensity point normal • material.color
    | none => light.intensity point normal • material.color

/-- Claim-side variant of `trace_ray` (claim C1): the id of the hit object is
excluded from every subsequent intersection search made on its behalf — the
shadow searches, as in the code, and also the recursive mirror-reflection
trace, which receives the emitting object's id through `exclude_id`
(`none` at the primary level). -/
noncomputable def trace_ray_excl (scene : Scene) (ray : Ray)
    (exclude_id : Option ℕ) (max_bounce : ℕ) : Vec4 :=
  match intersect_ray scene ray exclude_id with
  | some (t, entity_id, shape, material) =>
    let point := ray.get_point t
    let normal := shape.get_normal point
    let intensity :=
      (scene.lights.filterMap
        (lightContrib scene point normal entity_id material)).foldl (· + ·) (0 : Vec4)
    let intensity :=
      match max_bounce with
      | 0 => intensity
      | n + 1 =>
        let direction := ray.direction - (2 * ray.direction.dot normal) • normal
        intensity + trace_ray_excl scene ⟨point, direction⟩ (some entity_id) n * (0.5 : ℝ)
    intensity.min ⟨1, 1, 1, 1⟩
  | none => 0

/-- A trivial camera for concrete test scenes. -/
noncomputable def cam0 : Camera := ⟨⟨0, 0, 0⟩, Quat.identity, 1, 1⟩

/-- Plain white material. -/
noncomputable def matWhite : Material := ⟨⟨1, 1, 1, 1⟩⟩

/-- A scene with no objects and no lights. -/
noncomputable def sceneEmpty : Scene := ⟨[], [], cam0⟩

/-- One unit sphere centred at `(0,1,5)` lit by a spot light at `(0,-4,5)`:
the ray `rayTangent` grazes it tangentially at `(0,0,5)`. -/
noncomputable def sceneTangent : Scene :=
  ⟨[(0, Shape.sphere ⟨⟨0, 1, 5⟩, 1⟩, matWhite)],
    [Light.spot ⟨⟨0, -4, 5⟩, 1⟩], cam0⟩

/-- The tangent ray for `sceneTangent`. -/
noncomputable def rayTangent : Ray := ⟨⟨0, 0, 0⟩, ⟨0, 0, 1⟩⟩

/-- Two unit spheres with ids 0 and 1 on the `z` axis, no lights. -/
noncomputable def sceneTwo : Scene :=
  ⟨[(0, Shape.sphere ⟨⟨0, 0, 5⟩, 1⟩, matWhite),
    (1, Shape.sphere ⟨⟨0, 0, 9⟩, 1⟩, matWhite)], [], cam0⟩

/-- A ray down the `z` axis from the origin. -/
noncomputable def rayZ : Ray := ⟨⟨0, 0, 0⟩, ⟨0, 0, 1⟩⟩

/-- Spec-side quadratic coefficient `a = D·D` (spec §4.1). -/
noncomputable def sphereA (s : Sphere) (r : Ray) : ℝ :=
  r.direction.dot r.direction

/-- Spec-side quadratic coefficient `b = 2·D·(O−C)` (spec §4.1). -/
noncomputable def sphereB (s : Sphere) (r : Ray) : ℝ :=
  2 * r.direction.dot (r.position - s.position)

/-- Spec-side quadratic coefficient `c = O·O + C·C − 2·O·C − r²` (spec §4.1). -/
noncomputable def sphereC (s : Sphere) (r : Ray) : ℝ :=
  r.position.dot r.position + s.position.dot s.position -
    2 * r.position.dot s.position - s.radius ^ 2

/-- Spec-side discriminant `b² − 4ac` (spec §4.1). -/
noncomputable def sphereDisc (s : Sphere) (r : Ray) : ℝ :=
  sphereB s r ^ 2 - 4 * sphereA s r * sphereC s r

theorem Vec3.add_x (a b : Vec3) : (a + b).x = a.x + b.x := rfl

theorem Vec3.add_y (a b : Vec3) : (a + b).y = a.y + b.y := rfl

theorem Vec3.add_z (a b : Vec3) : (a + b).z = a.z + b.z := rfl

theorem Vec3.sub_x (a b : Vec3) : (a - b).x = a.x - b.x := rfl

theorem Vec3.sub_y (a b : Vec3) : (a - b).y = a.y - b.y := rfl

theorem Vec3.sub_z (a b : Vec3) : (a - b).z = a.z - b.z := rfl

theorem Vec3.mul_x (a b : Vec3) : (a * b).x = a.x * b.x := rfl

theorem Vec3.mul_y (a b : Vec3) : (a * b).y = a.y * b.y := rfl

theorem Vec3.mul_z (a b : Vec3) : (a * b).z = a.z * b.z := rfl

theorem Vec3.div_x (a b : Vec3) : (a / b).x = a.x / b.x := rfl

theorem Vec3.div_y (a b : Vec3) : (a / b).y = a.y / b.y := rfl

theorem Vec3.div_z (a b : Vec3) : (a / b).z = a.z / b.z := rfl

theorem Vec3.smul_x (s : ℝ) (v : Vec3) : (s • v).x = s * v.x := rfl

theorem Vec3.smul_y (s : ℝ) (v : Vec3) : (s • v).y = s * v.y := rfl

theorem Vec3.smul_z (s : ℝ) (v : Vec3) : (s • v).z = s * v.z := rfl

theorem Vec3.zero_eq_mk : (0 : Vec3) = ⟨0, 0, 0⟩ := rfl

theorem Vec4.add_def (a b : Vec4) : a + b = ⟨a.x + b.x, a.y + b.y, a.z + b.z, a.w + b.w⟩ := rfl

theorem Vec4.smul_def (s : ℝ) (v : Vec4) : s • v = ⟨s * v.x, s * v.y, s * v.z, s * v.w⟩ := rfl

theorem Vec4.hmul_def (v : Vec4) (s : ℝ) : v * s = ⟨v.x * s, v.y * s, v.z * s, v.w * s⟩ := rfl

theorem Vec4.zero_eq_mk4 : (0 : Vec4) = ⟨0, 0, 0, 0⟩ := rfl

theorem Vec4.add_zero (v : Vec4) : v + 0 = v := by
  cases v; simp [Vec4.add_def, Vec4.zero_eq_mk4]

theorem rpow_two (x : ℝ) : Real.rpow x 2 = x ^ 2 := by
  rw [show Real.rpow x 2 = x ^ ((2 : ℕ) : ℝ) by norm_num, Real.rpow_natCast]

theorem sqrt_one' : Real.sqrt 1 = 1 := Real.sqrt_one

theorem sqrt_four : Real.sqrt 4 = 2 := by
  rw [show (4 : ℝ) = 2 ^ 2 by norm_num, Real.sqrt_sq (by norm_num : (0 : ℝ) ≤ 2)]

theorem sqrt_sixteen : Real.sqrt 16 = 4 := by
  rw [show (16 : ℝ) = 4 ^ 2 by norm_num, Real.sqrt_sq (by norm_num : (0 : ℝ) ≤ 4)]

/-- `Sphere::intersect` in closed dot-product form: its componentwise `powf`
sums are exactly the spec's quadratic coefficients. -/
theorem Sphere.intersect_formula (s : Sphere) (r : Ray) :
    s.intersect r =
      if sphereDisc s r < 0 then none
      else
        some (Min.min ((-sphereB s r + Real.sqrt (sphereDisc s r)) / 2 * sphereA s r)
          ((-sphereB s r - Real.sqrt (sphereDisc s r)) / 2 * sphereA s r)) := by
  unfold Sphere.intersect sphereDisc sphereA sphereB sphereC
  have ha : (r.direction.powf 2).x + (r.direction.powf 2).y + (r.direction.powf 2).z =
      r.direction.dot r.direction := by
    simp [Vec3.powf, Vec3.dot, rpow_two]; ring
  have hb : (((2 : ℝ) • r.direction) * (r.position - s.position)).x +
        (((2 : ℝ) • r.direction) * (r.position - s.position)).y +
        (((2 : ℝ) • r.direction) * (r.position - s.position)).z =
      2 * r.direction.dot (r.position - s.position) := by
    simp [Vec3.mul_x, Vec3.mul_y, Vec3.mul_z, Vec3.smul_x, Vec3.smul_y, Vec3.smul_z,
      Vec3.sub_x, Vec3.sub_y, Vec3.sub_z, Vec3.dot]; ring
  have hc : (r.position.powf 2 + s.position.powf 2 - ((2 : ℝ) • r.position) * s.position).x +
        (r.position.powf 2 + s.position.powf 2 - ((2 : ℝ) • r.position) * s.position).y +
        (r.position.powf 2 + s.position.powf 2 - ((2 : ℝ) • r.position) * s.position).z =
      r.position.dot r.position + s.position.dot s.position -
        2 * r.position.dot s.position := by
    simp [Vec3.powf, Vec3.add_x, Vec3.add_y, Vec3.add_z, Vec3.sub_x, Vec3.sub_y, Vec3.sub_z,
      Vec3.mul_x, Vec3.mul_y, Vec3.mul_z, Vec3.smul_x, Vec3.smul_y, Vec3.smul_z,
      Vec3.dot, rpow_two]; ring
  simp only [ha, hb, hc, rpow_two]

/-- Fusing a left fold with `filterMap`. -/
theorem foldl_filterMap {α β γ : Type} (g : α → Option β) (f : γ → β → γ)
    (l : List α) (init : γ) :
    (l.filterMap g).foldl f init =
      l.foldl (fun acc a => match g a with | none => acc | some b => f acc b) init := by
  induction l generalizing init with
  | nil => rfl
  | cons a rest ih =>
    cases h : g a <;> simp [List.filterMap_cons, h, ih]

/-- `intersect_ray` as a single scan over the object list. -/
theorem intersect_ray_eq_scan (scene : Scene) (ray : Ray) (excl : Option ℕ) :
    intersect_ray scene ray excl = scene.objects.foldl (scanStep ray excl) none := by
  have key : ∀ (l : List (ℕ × Shape × Material)) (acc : Option (ℝ × ℕ × Shape × Material)),
      (l.filterMap (candidate ray excl)).foldl minStep acc = l.foldl (scanStep ray excl) acc := by
    intro l
    induction l with
    | nil => intro acc; rfl
    | cons o rest ih =>
      intro acc
      cases h : candidate ray excl o <;>
        simp [List.filterMap_cons, h, scanStep, ih]
  rw [intersect_ray, minByDist]
  exact key scene.objects none

/-- The scan never turns a populated accumulator back into `none`. -/
theorem scan_ne_none (ray : Ray) (excl : Option ℕ) (l : List (ℕ × Shape × Material))
    (b0 : ℝ × ℕ × Shape × Material) :
    l.foldl (scanStep ray excl) (some b0) ≠ none := by
  induction l generalizing b0 with
  | nil => simp
  | cons o rest ih =>
    simp only [List.foldl_cons]
    cases h : candidate ray excl o with
    | none =>
      rw [show scanStep ray excl (some b0) o = some b0 by simp [scanStep, h]]
      exact ih b0
    | some c =>
      by_cases hlt : c.1 < b0.1
      · rw [show scanStep ray excl (some b0) o = some c by simp [scanStep, h, minStep, hlt]]
        exact ih c
      · rw [show scanStep ray excl (some b0) o = some b0 by simp [scanStep, h, minStep, hlt]]
        exact ih b0

/-- Characterisation of the scan starting from a populated accumulator:
either the accumulator survives and is not beaten by any candidate, or the
result is the first candidate attaining the strict minimum below it. -/
theorem scan_acc_char (ray : Ray) (excl : Option ℕ) (l : List (ℕ × Shape × Material))
    (b0 b : ℝ × ℕ × Shape × Material)
    (h : l.foldl (scanStep ray excl) (some b0) = some b) :
    (b = b0 ∧ ∀ (k : ℕ) o c, l[k]? = some o → candidate ray excl o = some c → b0.1 ≤ c.1) ∨
    (∃ (i : ℕ) (o' : ℕ × Shape × Material), l[i]? = some o' ∧
      candidate ray excl o' = some b ∧ b.1 < b0.1 ∧
      (∀ (k : ℕ) o c, l[k]? = some o → candidate ray excl o = some c → b.1 ≤ c.1) ∧
      (∀ (k : ℕ) o c, k < i → l[k]? = some o → candidate ray excl o = some c → b.1 < c.1)) := by
  induction l generalizing b0 with
  | nil =>
    left
    simp only [List.foldl_nil, Option.some.injEq] at h
    refine ⟨h.symm, ?_⟩
    intro k o c hk
    simp at hk
  | cons o rest ih =>
    simp only [List.foldl_cons] at h
    cases hco : candidate ray excl o with
    | none =>
      rw [show scanStep ray excl (some b0) o = some b0 by simp [scanStep, hco]] at h
      rcases ih b0 h with ⟨hb, hmin⟩ | ⟨i', o', h1, h2, hlt, hmin, hbef⟩
      · left
        refine ⟨hb, ?_⟩
        rintro (_ | k) oo c hk hc
        · simp only [List.getElem?_cons_zero, Option.some.injEq] at hk
          subst hk
          rw [hco] at hc
          cases hc
        · simp only [List.getElem?_cons_succ] at hk
          exact hmin k oo c hk hc
      · right
        refine ⟨i' + 1, o', ?_, h2, hlt, ?_, ?_⟩
        · simpa using h1
        · rintro (_ | k) oo c hk hc
          · simp only [List.getElem?_cons_zero, Option.some.injEq] at hk
            subst hk
            rw [hco] at hc
            cases hc
          · simp only [List.getElem?_cons_succ] at hk
            exact hmin k oo c hk hc
        · rintro (_ | k) oo c hik hk hc
          · simp only [List.getElem?_cons_zero, Option.some.injEq] at hk
            subst hk
            rw [hco] at hc
            cases hc
          · simp only [List.getElem?_cons_succ] at hk
            exact hbef k oo c (by omega) hk hc
    | some c0 =>
      by_cases hlt0 : c0.1 < b0.1
      · rw [show scanStep ray excl (some b0) o = some c0 by
          simp [scanStep, hco, minStep, hlt0]] at h
        rcases ih c0 h with ⟨hb, hmin⟩ | ⟨i', o', h1, h2, hlt, hmin, hbef⟩
        · right
          subst hb
          refine ⟨0, o, by simp, hco, hlt0, ?_, ?_⟩
          · rintro (_ | k) oo c hk hc
            · simp only [List.getElem?_cons_zero, Option.some.injEq] at hk
              subst hk
              rw [hco] at hc
              cases hc
              exact le_refl _
            · simp only [List.getElem?_cons_succ] at hk
              exact hmin k oo c hk hc
          · rintro k oo c hik hk hc
            omega
        · right
          refine ⟨i' + 1, o', ?_, h2, lt_trans hlt hlt0, ?_, ?_⟩
          · simpa using h1
          · rintro (_ | k) oo c hk hc
            · simp only [List.getElem?_cons_zero, Option.some.injEq] at hk
              subst hk
              rw [hco] at hc
              cases hc
              exact le_of_lt hlt
            · simp only [List.getElem?_cons_succ] at hk
              exact hmin k oo c hk hc
          · rintro (_ | k) oo c hik hk hc
            · simp only [List.getElem?_cons_zero, Option.some.injEq] at hk
              subst hk
              rw [hco] at hc
              cases hc
              exact hlt
            · simp only [List.getElem?_cons_succ] at hk
              exact hbef k oo c (by omega) hk hc
      · rw [show scanStep ray excl (some b0) o = some b0 by
          simp [scanStep, hco, minStep, hlt0]] at h
        rcases ih b0 h with ⟨hb, hmin⟩ | ⟨i', o', h1, h2, hlt, hmin, hbef⟩
        · left
          refine ⟨hb, ?_⟩
          rintro (_ | k) oo c hk hc
          · simp only [List.getElem?_cons_zero, Option.some.injEq] at hk
            subst hk
            rw [hco] at hc
            cases hc
            exact not_lt.mp hlt0
          · simp only [List.getElem?_cons_succ] at hk
            exact hmin k oo c hk hc
        · right
          refine ⟨i' + 1, o', ?_, h2, hlt, ?_, ?_⟩
          · simpa using h1
          · rintro (_ | k) oo c hk hc
            · simp only [List.getElem?_cons_zero, Option.some.injEq] at hk
              subst hk
              rw [hco] at hc
              cases hc
              exact le_of_lt (lt_of_lt_of_le hlt (not_lt.mp hlt0))
            · simp only [List.getElem?_cons_succ] at hk
              exact hmin k oo c hk hc
          · rintro (_ | k) oo c hik hk hc
            · simp only [List.getElem?_cons_zero, Option.some.injEq] at hk
              subst hk
              rw [hco] at hc
              cases hc
              exact lt_of_lt_of_le hlt (not_lt.mp hlt0)
            · simp only [List.getElem?_cons_succ] at hk
              exact hbef k oo c (by omega) hk hc

/-- Characterisation of the full scan when it returns a hit: the result is a
candidate, it has minimal distance among all candidates, and every strictly
earlier candidate has a strictly larger distance (first of equal minima). -/
theorem scan_main_char (ray : Ray) (excl : Option ℕ) (l : List (ℕ × Shape × Material))
    (b : ℝ × ℕ × Shape × Material)
    (h : l.foldl (scanStep ray excl) none = some b) :
    ∃ (i : ℕ) (o' : ℕ × Shape × Material), l[i]? = some o' ∧
      candidate ray excl o' = some b ∧
      (∀ (k : ℕ) o c, l[k]? = some o → candidate ray excl o = some c → b.1 ≤ c.1) ∧
      (∀ (k : ℕ) o c, k < i → l[k]? = some o → candidate ray excl o = some c → b.1 < c.1) := by
  induction l with
  | nil => simp at h
  | cons o rest ih =>
    simp only [List.foldl_cons] at h
    cases hco : candidate ray excl o with
    | none =>
      rw [show scanStep ray excl none o = none by simp [scanStep, hco]] at h
      obtain ⟨i', o', h1, h2, hmin, hbef⟩ := ih h
      refine ⟨i' + 1, o', ?_, h2, ?_, ?_⟩
      · simpa using h1
      · rintro (_ | k) oo c hk hc
        · simp only [List.getElem?_cons_zero, Option.some.injEq] at hk
          subst hk
          rw [hco] at hc
          cases hc
        · simp only [List.getElem?_cons_succ] at hk
          exact hmin k oo c hk hc
      · rintro (_ | k) oo c hik hk hc
        · simp only [List.getElem?_cons_zero, Option.some.injEq] at hk
          subst hk
          rw [hco] at hc
          cases hc
        · simp only [List.getElem?_cons_succ] at hk
          exact hbef k oo c (by omega) hk hc
    | some c0 =>
      rw [show scanStep ray excl none o = some c0 by simp [scanStep, hco, minStep]] at h
      rcases scan_acc_char ray excl rest c0 b h with ⟨hb, hmin⟩ | ⟨i', o', h1, h2, hlt, hmin, hbef⟩
      · subst hb
        refine ⟨0, o, by simp, hco, ?_, ?_⟩
        · rintro (_ | k) oo c hk hc
          · simp only [List.getElem?_cons_zero, Option.some.injEq] at hk
            subst hk
            rw [hco] at hc
            cases hc
            exact le_refl _
          · simp only [List.getElem?_cons_succ] at hk
            exact hmin k oo c hk hc
        · rintro k oo c hik hk hc
          omega
      · refine ⟨i' + 1, o', ?_, h2, ?_, ?_⟩
        · simpa using h1
        · rintro (_ | k) oo c hk hc
          · simp only [List.getElem?_cons_zero, Option.some.injEq] at hk
            subst hk
            rw [hco] at hc
            cases hc
            exact le_of_lt hlt
          · simp only [List.getElem?_cons_succ] at hk
            exact hmin k oo c hk hc
        · rintro (_ | k) oo c hik hk hc
          · simp only [List.getElem?_cons_zero, Option.some.injEq] at hk
            subst hk
            rw [hco] at hc
            cases hc
            exact hlt
          · simp only [List.getElem?_cons_succ] at hk
            exact hbef k oo c (by omega) hk hc

/-- The full scan returns `none` exactly when no object yields a candidate. -/
theorem scan_none_char (ray : Ray) (excl : Option ℕ) (l : List (ℕ × Shape × Material)) :
    l.foldl (scanStep ray excl) none = none ↔
      ∀ (k : ℕ) o c, l[k]? = some o → candidate ray excl o = some c → False := by
  induction l with
  | nil => simp
  | cons o rest ih =>
    simp only [List.foldl_cons]
    cases hco : candidate ray excl o with
    | none =>
      rw [show scanStep ray excl none o = none by simp [scanStep, hco]]
      rw [ih]
      constructor
      · rintro hall (_ | k) oo c hk hc
        · simp only [List.getElem?_cons_zero, Option.some.injEq] at hk
          subst hk
          rw [hco] at hc
          cases hc
        · simp only [List.getElem?_cons_succ] at hk
          exact hall k oo c hk hc
      · intro hall k oo c hk hc
        exact hall (k + 1) oo c (by simpa using hk) hc
    | some c0 =>
      rw [show scanStep ray excl none o = some c0 by simp [scanStep, hco, minStep]]
      refine iff_of_false (scan_ne_none ray excl rest c0) ?_
      intro hall
      exact hall 0 o c0 (by simp) hco

/-- Unfolding `candidate` into its qualifying conditions. -/
theorem candidate_some_iff (ray : Ray) (excl : Option ℕ) (eid : ℕ) (sh : Shape)
    (mat : Material) (t : ℝ) (obj : ℕ × Shape × Material) :
    candidate ray excl obj = some (t, eid, sh, mat) ↔
      obj = (eid, sh, mat) ∧ excl ≠ some eid ∧ sh.intersect ray = some t ∧ 0 ≤ t := by
  obtain ⟨e0, s0, m0⟩ := obj
  simp only [candidate]
  by_cases he : excl = some e0
  · simp only [if_pos he]
    constructor
    · intro h
      cases h
    · rintro ⟨heq, hne, -, -⟩
      rw [Prod.mk.injEq] at heq
      exact absurd (heq.1 ▸ he) hne
  · simp only [if_neg he]
    cases hi : Shape.intersect s0 ray with
    | none =>
      constructor
      · intro h
        cases h
      · rintro ⟨heq, -, hint, -⟩
        rw [Prod.mk.injEq] at heq
        obtain ⟨h1, h2⟩ := heq
        rw [Prod.mk.injEq] at h2
        rw [← h2.1, hi] at hint
        cases hint
    | some t0 =>
      by_cases ht : (0 : ℝ) ≤ t0
      · simp only [if_pos ht]
        constructor
        · intro h
          injection h with h
          rw [Prod.mk.injEq] at h
          obtain ⟨rfl, h⟩ := h
          rw [Prod.mk.injEq] at h
          obtain ⟨rfl, h⟩ := h
          rw [Prod.mk.injEq] at h
          obtain ⟨rfl, rfl⟩ := h
          refine ⟨rfl, fun hc => he (by simpa using hc), hi, ht⟩
        · rintro ⟨heq, -, hint, -⟩
          rw [Prod.mk.injEq] at heq
          obtain ⟨h1, h2⟩ := heq
          rw [Prod.mk.injEq] at h2
          obtain ⟨h2a, h2b⟩ := h2
          subst h1
          subst h2a
          subst h2b
          rw [hi] at hint
          injection hint with hint
          subst hint
          rfl
      · simp only [if_neg ht]
        constructor
        · intro h
          cases h
        · rintro ⟨heq, -, hint, ht'⟩
          rw [Prod.mk.injEq] at heq
          obtain ⟨h1, h2⟩ := heq
          rw [Prod.mk.injEq] at h2
          obtain ⟨h2a, h2b⟩ := h2
          subst h2a
          rw [hi] at hint
          injection hint with hint
          subst hint
          exact absurd ht' ht

/-- `Qualifies` in terms of `candidate`. -/
theorem qualifies_iff_candidate (scene : Scene) (ray : Ray) (excl : Option ℕ)
    (k : ℕ) (t : ℝ) (eid : ℕ) (sh : Shape) (mat : Material) :
    Qualifies scene ray excl k t eid sh mat ↔
      ∃ o, scene.objects[k]? = some o ∧ candidate ray excl o = some (t, eid, sh, mat) := by
  unfold Qualifies
  constructor
  · rintro ⟨hobj, hne, hint, ht⟩
    exact ⟨(eid, sh, mat), hobj, (candidate_some_iff ray excl eid sh mat t _).mpr
      ⟨rfl, hne, hint, ht⟩⟩
  · rintro ⟨o, hobj, hc⟩
    obtain ⟨rfl, hne, hint, ht⟩ := (candidate_some_iff ray excl eid sh mat t o).mp hc
    exact ⟨hobj, hne, hint, ht⟩

/-- C4: for every scene, ray and optional excluded id, the intersection
search returns `none` exactly when no object qualifies (linear scan skipping
the excluded id, discarding non-hits and negative distances); and when it
returns a hit, that hit qualifies at some scan position `k`, no qualifying
hit has a smaller distance, and every qualifying hit strictly earlier in
encounter order has a strictly larger distance — the first of equal minima
wins. -/
theorem intersect_ray_scan_spec (scene : Scene) (ray : Ray) (excl : Option ℕ) :
    (intersect_ray scene ray excl = none ↔
      ∀ (k : ℕ) (t : ℝ) (eid : ℕ) (sh : Shape) (mat : Material),
        ¬Qualifies scene ray excl k t eid sh mat) ∧
    (∀ (t : ℝ) (eid : ℕ) (sh : Shape) (mat : Material),
      intersect_ray scene ray excl = some (t, eid, sh, mat) →
        ∃ (k : ℕ), Qualifies scene ray excl k t eid sh mat ∧
          (∀ (k' : ℕ) (t' : ℝ) (e' : ℕ) (s' : Shape) (m' : Material),
            Qualifies scene ray excl k' t' e' s' m' → t ≤ t') ∧
          (∀ (k' : ℕ) (t' : ℝ) (e' : ℕ) (s' : Shape) (m' : Material),
            k' < k → Qualifies scene ray excl k' t' e' s' m' → t < t')) := by
  constructor
  · rw [intersect_ray_eq_scan, scan_none_char]
    constructor
    · intro hall k t eid sh mat hq
      obtain ⟨o, hobj, hc⟩ := (qualifies_iff_candidate scene ray excl k t eid sh mat).mp hq
      exact hall k o (t, eid, sh, mat) hobj hc
    · intro hall k o c hk hc
      obtain ⟨t, eid, sh, mat⟩ := c
      exact hall k t eid sh mat
        ((qualifies_iff_candidate scene ray excl k t eid sh mat).mpr ⟨o, hk, hc⟩)
  · intro t eid sh mat h
    rw [intersect_ray_eq_scan] at h
    obtain ⟨i, o', h1, h2, hmin, hbef⟩ := scan_main_char ray excl scene.objects _ h
    refine ⟨i, (qualifies_iff_candidate scene ray excl i t eid sh mat).mpr ⟨o', h1, h2⟩,
      ?_, ?_⟩
    · intro k' t' e' s' m' hq
      obtain ⟨o, hobj, hc⟩ :=
        (qualifies_iff_candidate scene ray excl k' t' e' s' m').mp hq
      exact hmin k' o (t', e', s', m') hobj hc
    · intro k' t' e' s' m' hik hq
      obtain ⟨o, hobj, hc⟩ :=
        (qualifies_iff_candidate scene ray excl k' t' e' s' m').mp hq
      exact hbef k' o (t', e', s', m') hik hobj hc

/-- The intersection search with an excluded id never returns that id: in
`trace_ray` the shadow-ray occlusion searches pass the emitting object's id,
so the occluder they find is never the emitter itself. (The recursive
mirror-reflection trace, by contrast, searches with no exclusion.) -/
theorem shadow_search_excludes_emitter (scene : Scene) (ray : Ray) (i : ℕ)
    (t : ℝ) (eid : ℕ) (sh : Shape) (mat : Material)
    (h : intersect_ray scene ray (some i) = some (t, eid, sh, mat)) : eid ≠ i := by
  rw [intersect_ray_eq_scan] at h
  obtain ⟨k, o', h1, h2, -, -⟩ := scan_main_char ray (some i) scene.objects _ h
  obtain ⟨-, hne, -, -⟩ := (candidate_some_iff ray (some i) eid sh mat t o').mp h2
  intro hcontra
  exact hne (by rw [hcontra])

/-- Concrete evaluation: in `sceneTwo`, the search along `rayZ` with id `0`
excluded skips the nearer sphere (id 0, hit at `t = 4`) and returns the
farther sphere id 1 at `t = 8`. -/
theorem sceneTwo_excl_eval :
    intersect_ray sceneTwo rayZ (some 0) =
      some (8, 1, Shape.sphere ⟨⟨0, 0, 9⟩, 1⟩, matWhite) := by
  rw [intersect_ray]
  have hc0 : candidate rayZ (some 0) (0, Shape.sphere ⟨⟨0, 0, 5⟩, 1⟩, matWhite) = none := by
    simp [candidate]
  have hc1 : candidate rayZ (some 0) (1, Shape.sphere ⟨⟨0, 0, 9⟩, 1⟩, matWhite) =
      some (8, 1, Shape.sphere ⟨⟨0, 0, 9⟩, 1⟩, matWhite) := by
    have hint : Shape.intersect (Shape.sphere ⟨⟨0, 0, 9⟩, 1⟩) rayZ = some 8 := by
      show Sphere.intersect ⟨⟨0, 0, 9⟩, 1⟩ rayZ = some 8
      rw [Sphere.intersect_formula]
      have hdisc : sphereDisc ⟨⟨0, 0, 9⟩, 1⟩ rayZ = 4 := by
        simp only [sphereDisc, sphereA, sphereB, sphereC, rayZ, Vec3.dot, Vec3.sub_x,
          Vec3.sub_y, Vec3.sub_z]
        norm_num
      have hb : sphereB ⟨⟨0, 0, 9⟩, 1⟩ rayZ = -18 := by
        simp only [sphereB, rayZ, Vec3.dot, Vec3.sub_x, Vec3.sub_y, Vec3.sub_z]
        norm_num
      have ha : sphereA ⟨⟨0, 0, 9⟩, 1⟩ rayZ = 1 := by
        simp only [sphereA, rayZ, Vec3.dot]
        norm_num
      rw [hdisc, hb, ha, sqrt_four]
      norm_num [min_def]
    simp [candidate, hint]
  rw [show sceneTwo.objects = [(0, Shape.sphere ⟨⟨0, 0, 5⟩, 1⟩, matWhite),
    (1, Shape.sphere ⟨⟨0, 0, 9⟩, 1⟩, matWhite)] from rfl]
  rw [List.filterMap_cons, hc0, List.filterMap_cons, hc1]
  simp [minByDist, minStep]

/-- Witness for the scan characterisation: in `sceneTwo` with id `0` excluded
the search along `rayZ` returns the id-1 sphere at distance 8, which
qualifies, is minimal, and is first among the minima. -/
theorem intersect_ray_scan_spec_witness :
    intersect_ray sceneTwo rayZ (some 0) =
      some (8, 1, Shape.sphere ⟨⟨0, 0, 9⟩, 1⟩, matWhite) ∧
    ∃ (k : ℕ), Qualifies sceneTwo rayZ (some 0) k 8 1 (Shape.sphere ⟨⟨0, 0, 9⟩, 1⟩) matWhite ∧
      (∀ (k' : ℕ) (t' : ℝ) (e' : ℕ) (s' : Shape) (m' : Material),
        Qualifies sceneTwo rayZ (some 0) k' t' e' s' m' → 8 ≤ t') ∧
      (∀ (k' : ℕ) (t' : ℝ) (e' : ℕ) (s' : Shape) (m' : Material),
        k' < k → Qualifies sceneTwo rayZ (some 0) k' t' e' s' m' → 8 < t') :=
  ⟨sceneTwo_excl_eval,
    (intersect_ray_scan_spec sceneTwo rayZ (some 0)).2 8 1
      (Shape.sphere ⟨⟨0, 0, 9⟩, 1⟩) matWhite sceneTwo_excl_eval⟩

/-- Witness for the exclusion property: the id-0-excluded search in
`sceneTwo` returns id 1, and indeed `1 ≠ 0`. -/
theorem shadow_search_excludes_emitter_witness :
    intersect_ray sceneTwo rayZ (some 0) =
      some (8, 1, Shape.sphere ⟨⟨0, 0, 9⟩, 1⟩, matWhite) ∧ (1 : ℕ) ≠ 0 :=
  ⟨sceneTwo_excl_eval,
    shadow_search_excludes_emitter sceneTwo rayZ 0 8 1
      (Shape.sphere ⟨⟨0, 0, 9⟩, 1⟩) matWhite sceneTwo_excl_eval⟩

/-- C3: `Sphere::intersect` returns `none` exactly when the discriminant
`b² − 4ac` is negative, and otherwise returns the smaller of the two roots
`(−b ± sqrt(disc)) / 2 * a` (division by 2 before multiplying by `a`),
with no filtering of negative results — witnessed by a sphere behind the
ray origin for which it returns a negative distance. -/
theorem sphere_intersect_disc_spec :
    (∀ (s : Sphere) (r : Ray),
      (s.intersect r = none ↔ sphereDisc s r < 0) ∧
      s.intersect r =
        (if sphereDisc s r < 0 then none
         else
           some (Min.min ((-sphereB s r + Real.sqrt (sphereDisc s r)) / 2 * sphereA s r)
             ((-sphereB s r - Real.sqrt (sphereDisc s r)) / 2 * sphereA s r)))) ∧
    ∃ (s : Sphere) (r : Ray) (t : ℝ), s.intersect r = some t ∧ t < 0 := by
  constructor
  · intro s r
    refine ⟨?_, Sphere.intersect_formula s r⟩
    rw [Sphere.intersect_formula]
    by_cases h : sphereDisc s r < 0 <;> simp [h]
  · refine ⟨⟨⟨0, 0, 0⟩, 1⟩, ⟨⟨0, 0, 3⟩, ⟨0, 0, 1⟩⟩, -4, ?_, by norm_num⟩
    rw [Sphere.intersect_formula]
    have hdisc : sphereDisc ⟨⟨0, 0, 0⟩, 1⟩ ⟨⟨0, 0, 3⟩, ⟨0, 0, 1⟩⟩ = 4 := by
      simp only [sphereDisc, sphereA, sphereB, sphereC, Vec3.dot, Vec3.sub_x,
        Vec3.sub_y, Vec3.sub_z]
      norm_num
    have hb : sphereB ⟨⟨0, 0, 0⟩, 1⟩ ⟨⟨0, 0, 3⟩, ⟨0, 0, 1⟩⟩ = 6 := by
      simp only [sphereB, Vec3.dot, Vec3.sub_x, Vec3.sub_y, Vec3.sub_z]
      norm_num
    have ha : sphereA ⟨⟨0, 0, 0⟩, 1⟩ ⟨⟨0, 0, 3⟩, ⟨0, 0, 1⟩⟩ = 1 := by
      simp only [sphereA, Vec3.dot]
      norm_num
    rw [hdisc, hb, ha, sqrt_four]
    norm_num [min_def]

/-- C2 (code bug): for every cursor position and screen size, the object ids
pushed by `simple_scene` are `[0, 0, 1, 2, 3, 4, 5, 6]` — the oversized white
sphere and the first blue sphere both carry id `0`, so the ids are not
pairwise distinct. -/
theorem simple_scene_duplicate_ids :
    ∀ (c s : Vec2),
      ((simple_scene c s).objects.map Prod.fst) = [0, 0, 1, 2, 3, 4, 5, 6] ∧
      ¬((simple_scene c s).objects.map Prod.fst).Nodup := by
  intro c s
  have heq : ((simple_scene c s).objects.map Prod.fst) = [0, 0, 1, 2, 3, 4, 5, 6] := rfl
  refine ⟨heq, ?_⟩
  rw [heq]
  decide

/-- C8: a `SpotLight` exactly coincident with the shaded point (so the light
direction is the normalisation of the zero vector) deterministically yields
no light ray — the IEEE path makes the `< π/2` front-face test false on NaN,
and the real-valued embedding makes the angle exactly `π/2` — so the light
contributes nothing to the pixel color instead of propagating NaN. -/
theorem spotlight_degenerate_no_contribution :
    ∀ (l : SpotLight) (point normal : Vec3), l.position = point →
      Light.get_light_ray (Light.spot l) point normal = none ∧
      ∀ (scene : Scene) (eid : ℕ) (mat : Material),
        lightContrib scene point normal eid mat (Light.spot l) = none := by
  intro l point normal hpos
  have hz : l.position - point = (⟨0, 0, 0⟩ : Vec3) := by
    rw [hpos]
    ext <;> simp [Vec3.sub_x, Vec3.sub_y, Vec3.sub_z]
  have hn : Vec3.normalize (⟨0, 0, 0⟩ : Vec3) = ⟨0, 0, 0⟩ := by
    ext <;> simp [Vec3.normalize, Vec3.smul_x, Vec3.smul_y, Vec3.smul_z]
  have hang : Vec3.angle_between (⟨0, 0, 0⟩ : Vec3) normal = Real.pi / 2 := by
    simp [Vec3.angle_between, Vec3.dot, Vec3.length_squared, Real.sqrt_zero,
      Real.arccos_zero]
  have hglr : Light.get_light_ray (Light.spot l) point normal = none := by
    simp only [Light.get_light_ray, hz, hn, hang]
    simp
  exact ⟨hglr, fun scene eid mat => by simp [lightContrib, hglr]⟩

/-- Witness for the degenerate spot light: concrete light and point
coincide at `(1,2,3)`, and both the light ray and the contribution vanish. -/
theorem spotlight_degenerate_no_contribution_witness :
    (SpotLight.mk ⟨1, 2, 3⟩ 1).position = (⟨1, 2, 3⟩ : Vec3) ∧
    Light.get_light_ray (Light.spot ⟨⟨1, 2, 3⟩, 1⟩) ⟨1, 2, 3⟩ ⟨0, 0, 1⟩ = none ∧
    lightContrib sceneEmpty ⟨1, 2, 3⟩ ⟨0, 0, 1⟩ 0 matWhite
      (Light.spot ⟨⟨1, 2, 3⟩, 1⟩) = none :=
  ⟨rfl,
    (spotlight_degenerate_no_contribution ⟨⟨1, 2, 3⟩, 1⟩ ⟨1, 2, 3⟩ ⟨0, 0, 1⟩ rfl).1,
    (spotlight_degenerate_no_contribution ⟨⟨1, 2, 3⟩, 1⟩ ⟨1, 2, 3⟩ ⟨0, 0, 1⟩ rfl).2
      sceneEmpty 0 matWhite⟩

/-- C9 (amended): `SpotLight::intensity` is monotonically non-increasing in
the light-to-point distance for a fixed angle, provided the intensity is
nonnegative, the fixed angle is at most `π/2` (nonnegative angular factor)
and the distances are positive. -/
theorem spotlight_intensity_antitone (l : SpotLight) (p1 p2 n1 n2 : Vec3)
    (hI : 0 ≤ l.intensity)
    (hang : Vec3.angle_between (l.position - p1) n1 =
      Vec3.angle_between (l.position - p2) n2)
    (hhalf : Vec3.angle_between (l.position - p1) n1 ≤ Real.pi / 2)
    (hpos : 0 < Vec3.distance l.position p1)
    (hle : Vec3.distance l.position p1 ≤ Vec3.distance l.position p2) :
    Light.intensity (Light.spot l) p2 n2 ≤ Light.intensity (Light.spot l) p1 n1 := by
  simp only [Vec3.distance] at hpos hle
  simp only [Light.intensity]
  rw [← hang]
  have hfac : 0 ≤ 1 - Vec3.angle_between (l.position - p1) n1 / (Real.pi / 2) := by
    have hpi : 0 < Real.pi / 2 := by positivity
    have hq : Vec3.angle_between (l.position - p1) n1 / (Real.pi / 2) ≤ 1 :=
      (div_le_one hpi).mpr hhalf
    linarith
  have hd : l.intensity / Real.sqrt (l.position - p2).length ≤
      l.intensity / Real.sqrt (l.position - p1).length := by
    have h1 : 0 < Real.sqrt (l.position - p1).length := Real.sqrt_pos.mpr hpos
    have h2 : Real.sqrt (l.position - p1).length ≤ Real.sqrt (l.position - p2).length :=
      Real.sqrt_le_sqrt hle
    gcongr
  exact mul_le_mul_of_nonneg_right hd hfac

/-- Witness for the amended monotonicity: light at the origin, points at
distances 1 and 4 straight below the normal direction, angle 0 on both. -/
theorem spotlight_intensity_antitone_witness :
    (0 : ℝ) ≤ (1 : ℝ) ∧
    Vec3.angle_between ((⟨0, 0, 0⟩ : Vec3) - ⟨0, 0, 1⟩) ⟨0, 0, -1⟩ =
      Vec3.angle_between ((⟨0, 0, 0⟩ : Vec3) - ⟨0, 0, 4⟩) ⟨0, 0, -1⟩ ∧
    Vec3.angle_between ((⟨0, 0, 0⟩ : Vec3) - ⟨0, 0, 1⟩) ⟨0, 0, -1⟩ ≤ Real.pi / 2 ∧
    0 < Vec3.distance (⟨0, 0, 0⟩ : Vec3) ⟨0, 0, 1⟩ ∧
    Vec3.distance (⟨0, 0, 0⟩ : Vec3) ⟨0, 0, 1⟩ ≤ Vec3.distance (⟨0, 0, 0⟩ : Vec3) ⟨0, 0, 4⟩ ∧
    Light.intensity (Light.spot ⟨⟨0, 0, 0⟩, 1⟩) ⟨0, 0, 4⟩ ⟨0, 0, -1⟩ ≤
      Light.intensity (Light.spot ⟨⟨0, 0, 0⟩, 1⟩) ⟨0, 0, 1⟩ ⟨0, 0, -1⟩ := by
  have hang1 : Vec3.angle_between ((⟨0, 0, 0⟩ : Vec3) - ⟨0, 0, 1⟩) ⟨0, 0, -1⟩ = 0 := by
    simp only [Vec3.angle_between, Vec3.dot, Vec3.length_squared, Vec3.sub_x,
      Vec3.sub_y, Vec3.sub_z]
    norm_num [Real.sqrt_one, Real.arccos_one]
  have hang2 : Vec3.angle_between ((⟨0, 0, 0⟩ : Vec3) - ⟨0, 0, 4⟩) ⟨0, 0, -1⟩ = 0 := by
    simp only [Vec3.angle_between, Vec3.dot, Vec3.length_squared, Vec3.sub_x,
      Vec3.sub_y, Vec3.sub_z]
    norm_num [sqrt_sixteen, Real.arccos_one]
  have hd1 : Vec3.distance (⟨0, 0, 0⟩ : Vec3) ⟨0, 0, 1⟩ = 1 := by
    simp only [Vec3.distance, Vec3.length, Vec3.length_squared, Vec3.dot, Vec3.sub_x,
      Vec3.sub_y, Vec3.sub_z]
    norm_num [Real.sqrt_one]
  have hd2 : Vec3.distance (⟨0, 0, 0⟩ : Vec3) ⟨0, 0, 4⟩ = 4 := by
    simp only [Vec3.distance, Vec3.length, Vec3.length_squared, Vec3.dot, Vec3.sub_x,
      Vec3.sub_y, Vec3.sub_z]
    norm_num [sqrt_sixteen]
  refine ⟨by norm_num, by rw [hang1, hang2], ?_, by rw [hd1]; norm_num,
    by rw [hd1, hd2]; norm_num, ?_⟩
  · rw [hang1]
    positivity
  · exact spotlight_intensity_antitone ⟨⟨0, 0, 0⟩, 1⟩ ⟨0, 0, 1⟩ ⟨0, 0, 4⟩ ⟨0, 0, -1⟩
      ⟨0, 0, -1⟩ (by norm_num) (by rw [hang1, hang2]) (by rw [hang1]; positivity)
      (by rw [hd1]; norm_num) (by rw [hd1, hd2]; norm_num)

/-- C9 counterexample: at a fixed angle of `π` (surface facing away), the
angular factor is negative and `SpotLight::intensity` strictly increases as
the distance grows from 1 to 4 — so it is not monotonically non-increasing
for every fixed angle. -/
theorem spotlight_intensity_not_antitone :
    Vec3.distance (⟨0, 0, 0⟩ : Vec3) ⟨0, 0, 1⟩ < Vec3.distance (⟨0, 0, 0⟩ : Vec3) ⟨0, 0, 4⟩ ∧
    Vec3.angle_between ((⟨0, 0, 0⟩ : Vec3) - ⟨0, 0, 1⟩) ⟨0, 0, 1⟩ =
      Vec3.angle_between ((⟨0, 0, 0⟩ : Vec3) - ⟨0, 0, 4⟩) ⟨0, 0, 1⟩ ∧
    Light.intensity (Light.spot ⟨⟨0, 0, 0⟩, 1⟩) ⟨0, 0, 1⟩ ⟨0, 0, 1⟩ <
      Light.intensity (Light.spot ⟨⟨0, 0, 0⟩, 1⟩) ⟨0, 0, 4⟩ ⟨0, 0, 1⟩ := by
  have hd1 : Vec3.distance (⟨0, 0, 0⟩ : Vec3) ⟨0, 0, 1⟩ = 1 := by
    simp only [Vec3.distance, Vec3.length, Vec3.length_squared, Vec3.dot, Vec3.sub_x,
      Vec3.sub_y, Vec3.sub_z]
    norm_num [Real.sqrt_one]
  have hd2 : Vec3.distance (⟨0, 0, 0⟩ : Vec3) ⟨0, 0, 4⟩ = 4 := by
    simp only [Vec3.distance, Vec3.length, Vec3.length_squared, Vec3.dot, Vec3.sub_x,
      Vec3.sub_y, Vec3.sub_z]
    norm_num [sqrt_sixteen]
  have hang1 : Vec3.angle_between ((⟨0, 0, 0⟩ : Vec3) - ⟨0, 0, 1⟩) ⟨0, 0, 1⟩ = Real.pi := by
    simp only [Vec3.angle_between, Vec3.dot, Vec3.length_squared, Vec3.sub_x,
      Vec3.sub_y, Vec3.sub_z]
    norm_num [Real.sqrt_one, Real.arccos_neg_one]
  have hang2 : Vec3.angle_between ((⟨0, 0, 0⟩ : Vec3) - ⟨0, 0, 4⟩) ⟨0, 0, 1⟩ = Real.pi := by
    simp only [Vec3.angle_between, Vec3.dot, Vec3.length_squared, Vec3.sub_x,
      Vec3.sub_y, Vec3.sub_z]
    norm_num [sqrt_sixteen, Real.arccos_neg_one]
  have hpi2 : Real.pi / (Real.pi / 2) = 2 := by
    field_simp
  have hlen1 : ((⟨0, 0, 0⟩ : Vec3) - ⟨0, 0, 1⟩).length = 1 := by
    simp only [Vec3.length, Vec3.length_squared, Vec3.dot, Vec3.sub_x, Vec3.sub_y,
      Vec3.sub_z]
    norm_num [Real.sqrt_one]
  have hlen2 : ((⟨0, 0, 0⟩ : Vec3) - ⟨0, 0, 4⟩).length = 4 := by
    simp only [Vec3.length, Vec3.length_squared, Vec3.dot, Vec3.sub_x, Vec3.sub_y,
      Vec3.sub_z]
    norm_num [sqrt_sixteen]
  have hint1 : Light.intensity (Light.spot ⟨⟨0, 0, 0⟩, 1⟩) ⟨0, 0, 1⟩ ⟨0, 0, 1⟩ = -1 := by
    simp only [Light.intensity]
    rw [hlen1, hang1, hpi2, Real.sqrt_one]
    norm_num
  have hint2 : Light.intensity (Light.spot ⟨⟨0, 0, 0⟩, 1⟩) ⟨0, 0, 4⟩ ⟨0, 0, 1⟩ = -(1 / 2) := by
    simp only [Light.intensity]
    rw [hlen2, hang2, hpi2, sqrt_four]
    norm_num
  refine ⟨by rw [hd1, hd2]; norm_num, by rw [hang1, hang2], ?_⟩
  rw [hint1, hint2]
  norm_num

/-- The spec-side per-light contribution is the code's optional contribution
with `none` read as the zero color. -/
theorem specLightContrib_eq (scene : Scene) (p n : Vec3) (eid : ℕ) (mat : Material)
    (light : Light) :
    specLightContrib scene p n eid mat light =
      match lightContrib scene p n eid mat light with
      | some v => v
      | none => 0 := by
  simp only [specLightContrib, lightContrib]
  cases hg : Light.get_light_ray light p n with
  | none => rfl
  | some lray =>
    cases hi : intersect_ray scene lray (some eid) with
    | none => simp [hi]
    | some r =>
      obtain ⟨t, e2, s2, m2⟩ := r
      by_cases hc : Light.check_shadow light p (lray.get_point t)
      · simp [hi, hc]
      · simp [hi, hc]

/-- Summing a list of optional colors by `filterMap` equals summing their
total reading with `none` as zero. -/
theorem foldl_add_filterMap_map {α : Type} (f : α → Option Vec4) (g : α → Vec4)
    (hfg : ∀ a, g a = match f a with | some v => v | none => 0)
    (l : List α) (init : Vec4) :
    (l.filterMap f).foldl (· + ·) init = (l.map g).foldl (· + ·) init := by
  induction l generalizing init with
  | nil => rfl
  | cons a rest ih =>
    cases h : f a with
    | none =>
      simp only [List.filterMap_cons, h, List.map_cons, List.foldl_cons]
      rw [hfg a, h]
      rw [show (init + (match (none : Option Vec4) with | some v => v | none => 0)) = init
        from Vec4.add_zero init]
      exact ih init
    | some v =>
      simp only [List.filterMap_cons, h, List.map_cons, List.foldl_cons]
      rw [hfg a, h]
      exact ih (init + v)

/-- C5: `trace_ray` with `max_bounce = 0` performs no recursion — on a miss
it returns `(0,0,0,0)`, and on a hit it returns exactly the direct-lighting
sum over the lights, clamped componentwise from above by `1.0` with no lower
clamp. -/
theorem trace_ray_zero_spec (scene : Scene) (ray : Ray) :
    trace_ray scene ray 0 =
      match intersect_ray scene ray none with
      | none => (0 : Vec4)
      | some (t, eid, sh, mat) =>
        Vec4.min
          ((scene.lights.map (specLightContrib scene (ray.get_point t)
            (sh.get_normal (ray.get_point t)) eid mat)).foldl (· + ·) (0 : Vec4))
          ⟨1, 1, 1, 1⟩ := by
  rw [trace_ray]
  cases h : intersect_ray scene ray none with
  | none => rfl
  | some r =>
    obtain ⟨t, eid, sh, mat⟩ := r
    simp only []
    congr 1
    exact foldl_add_filterMap_map
      (lightContrib scene (ray.get_point t) (sh.get_normal (ray.get_point t)) eid mat)
      (specLightContrib scene (ray.get_point t) (sh.get_normal (ray.get_point t)) eid mat)
      (fun a => specLightContrib_eq scene (ray.get_point t)
        (sh.get_normal (ray.get_point t)) eid mat a)
      scene.lights 0

/-- Length of a `flatMap` whose blocks all have length `c`. -/
theorem flatMap_length_const {α β : Type} (l : List α) (f : α → List β) (c : ℕ)
    (hc : ∀ a ∈ l, (f a).length = c) : (l.flatMap f).length = c * l.length := by
  induction l with
  | nil => simp
  | cons a rest ih =>
    have ha := hc a (List.mem_cons_self a rest)
    have hr : ∀ b ∈ rest, (f b).length = c := fun b hb => hc b (List.mem_cons_of_mem a hb)
    simp only [List.flatMap_cons, List.length_append, ha, ih hr, List.length_cons]
    ring

/-- Indexing into a `flatMap` whose blocks all have length `c`. -/
theorem flatMap_getElem_const {α β : Type} (l : List α) (f : α → List β) (c : ℕ)
    (hc : ∀ a ∈ l, (f a).length = c) (i j : ℕ) (hj : j < c) (a : α)
    (ha : l[i]? = some a) : (l.flatMap f)[c * i + j]? = (f a)[j]? := by
  induction l generalizing i with
  | nil => simp at ha
  | cons hd tl ih =>
    cases i with
    | zero =>
      simp only [List.getElem?_cons_zero, Option.some.injEq] at ha
      subst ha
      rw [List.flatMap_cons]
      rw [show c * 0 + j = j by ring]
      exact List.getElem?_append_left (by rw [hc hd (List.mem_cons_self hd tl)]; exact hj)
    | succ i' =>
      simp only [List.getElem?_cons_succ] at ha
      have hhd := hc hd (List.mem_cons_self hd tl)
      have htl : ∀ b ∈ tl, (f b).length = c := fun b hb => hc b (List.mem_cons_of_mem hd hb)
      have hmul : c * (i' + 1) = c * i' + c := by ring
      have hlen : (f hd).length ≤ c * (i' + 1) + j := by
        rw [hhd]
        omega
      rw [List.flatMap_cons, List.getElem?_append_right hlen]
      have hidx : c * (i' + 1) + j - (f hd).length = c * i' + j := by
        rw [hhd]
        omega
      rw [hidx]
      exact ih htl i' ha

/-- The ray generated for pixel `(x, y)` sits at linear index `y*W + x` of
the ray list (row-major order: `y` outer, `x` inner). -/
theorem genRays_getElem (scene : Scene) (W H x y : ℕ) (hx : x < W) (hy : y < H) :
    (genRays scene W H)[y * W + x]? = some (pixelRay scene.camera W H x y) := by
  unfold genRays
  have hc : ∀ y' ∈ List.range H,
      ((List.range W).map (fun x' => pixelRay scene.camera W H x' y')).length = W := by
    intro y' _
    simp
  have key := flatMap_getElem_const (List.range H)
    (fun y' => (List.range W).map (fun x' => pixelRay scene.camera W H x' y')) W hc y x hx y
    (List.getElem?_range hy)
  rw [show y * W + x = W * y + x by ring]
  rw [key]
  rw [List.getElem?_map, List.getElem?_range hx]
  rfl

/-- C6: `render` derives the uniform scale factor as `arctan(fov_y) * near_z`
(`atan`, not `tan`), maps pixel `(x, y)` of a `W×H` buffer to the camera-local
point `((x − W/2), −(y − H/2), near_z) / (H, H, 1)`, projects it through the
scale∘rotate∘translate camera transform, and builds the ray with origin at the
projected world point and direction `normalize(world_point − camera.position)`;
the ray sits at row-major index `y*W + x`. -/
theorem camera_ray_spec (scene : Scene) (W H x y : ℕ) (hx : x < W) (hy : y < H) :
    (genRays scene W H)[y * W + x]? = some (pixelRay scene.camera W H x y) ∧
    pixelRay scene.camera W H x y =
      Ray.mk
        (srtProject
          ⟨Real.arctan scene.camera.fov_y * scene.camera.near_z,
            Real.arctan scene.camera.fov_y * scene.camera.near_z, 1⟩
          scene.camera.rotation scene.camera.position
          ⟨((x : ℝ) - (W : ℝ) / 2) / (H : ℝ), -((y : ℝ) - (H : ℝ) / 2) / (H : ℝ),
            scene.camera.near_z⟩)
        ((srtProject
          ⟨Real.arctan scene.camera.fov_y * scene.camera.near_z,
            Real.arctan scene.camera.fov_y * scene.camera.near_z, 1⟩
          scene.camera.rotation scene.camera.position
          ⟨((x : ℝ) - (W : ℝ) / 2) / (H : ℝ), -((y : ℝ) - (H : ℝ) / 2) / (H : ℝ),
            scene.camera.near_z⟩ - scene.camera.position).normalize) := by
  refine ⟨genRays_getElem scene W H x y hx hy, ?_⟩
  unfold pixelRay
  have hp : (Vec3.mk ((x : ℝ) - (W : ℝ) / 2) (((y : ℝ) - (H : ℝ) / 2) * (-1))
        scene.camera.near_z) / ⟨(H : ℝ), (H : ℝ), 1⟩ =
      ⟨((x : ℝ) - (W : ℝ) / 2) / (H : ℝ), -((y : ℝ) - (H : ℝ) / 2) / (H : ℝ),
        scene.camera.near_z⟩ := by
    ext
    · simp [Vec3.div_x]
    · simp [Vec3.div_y]
      try ring_nf
    · simp [Vec3.div_z]
  rw [hp]

/-- Witness for the camera-ray construction at pixel `(0, 0)` of a `1×1`
buffer over the empty scene. -/
theorem camera_ray_spec_witness :
    (genRays sceneEmpty 1 1)[0 * 1 + 0]? = some (pixelRay sceneEmpty.camera 1 1 0 0) :=
  (camera_ray_spec sceneEmpty 1 1 0 0 (by decide) (by decide)).1

/-- The ray list has one ray per pixel. -/
theorem genRays_length (scene : Scene) (W H : ℕ) :
    (genRays scene W H).length = W * H := by
  unfold genRays
  rw [flatMap_length_const (List.range H) _ W (by intro a _; simp)]
  simp

/-- Projecting the write indices out of the write quadruples. -/
theorem map_fst_flatMap_quad {α : Type} (l : List (ℕ × α)) (v0 v1 v2 v3 : ℕ × α → ℕ) :
    (l.flatMap (fun ir => [(ir.1 * 4, v0 ir), (ir.1 * 4 + 1, v1 ir),
        (ir.1 * 4 + 2, v2 ir), (ir.1 * 4 + 3, v3 ir)])).map Prod.fst =
      l.flatMap (fun ir => [ir.1 * 4, ir.1 * 4 + 1, ir.1 * 4 + 2, ir.1 * 4 + 3]) := by
  induction l with
  | nil => rfl
  | cons a rest ih => simp [List.flatMap_cons, ih]

/-- A `flatMap` that only looks at the first components factors through them. -/
theorem flatMap_comp_fst {α : Type} (l : List (ℕ × α)) (g : ℕ → List ℕ) :
    l.flatMap (fun ir => g ir.1) = (l.map Prod.fst).flatMap g := by
  induction l with
  | nil => rfl
  | cons a rest ih => simp [List.flatMap_cons, ih]

/-- The consecutive write-offset quadruples of the pixels tile `range (n*4)`. -/
theorem range_quad_offsets (n : ℕ) :
    (List.range n).flatMap (fun i => [i * 4, i * 4 + 1, i * 4 + 2, i * 4 + 3]) =
      List.range (n * 4) := by
  induction n with
  | zero => rfl
  | succ m ih =>
    rw [List.range_succ, List.flatMap_append, ih]
    have h4 : (m + 1) * 4 = m * 4 + 1 + 1 + 1 + 1 := by ring
    rw [h4, List.range_succ, List.range_succ, List.range_succ, List.range_succ]
    simp [List.flatMap_cons, List.append_assoc]

/-- The write indices `render` emits are exactly `0, 1, …, W*H*4 − 1` in
order: every buffer byte is written exactly once, in-bounds for a buffer of
length `W*H*4`, and the four bytes of distinct pixels never overlap. -/
theorem renderWrites_fst_range (scene : Scene) (W H : ℕ) :
    (renderWrites scene W H).map Prod.fst = List.range (W * H * 4) := by
  have h1 : (renderWrites scene W H).map Prod.fst =
      (genRays scene W H).enum.flatMap
        (fun ir => [ir.1 * 4, ir.1 * 4 + 1, ir.1 * 4 + 2, ir.1 * 4 + 3]) :=
    map_fst_flatMap_quad (genRays scene W H).enum
      (fun ir => f32toU8 (some ((trace_ray scene ir.2 3 * (255 : ℝ)).x)))
      (fun ir => f32toU8 (some ((trace_ray scene ir.2 3 * (255 : ℝ)).y)))
      (fun ir => f32toU8 (some ((trace_ray scene ir.2 3 * (255 : ℝ)).z)))
      (fun ir => f32toU8 (some ((trace_ray scene ir.2 3 * (255 : ℝ)).w)))
  rw [h1]
  rw [show ((genRays scene W H).enum.flatMap
        fun ir => [ir.1 * 4, ir.1 * 4 + 1, ir.1 * 4 + 2, ir.1 * 4 + 3]) =
      ((genRays scene W H).enum.map Prod.fst).flatMap
        (fun i => [i * 4, i * 4 + 1, i * 4 + 2, i * 4 + 3]) from
    flatMap_comp_fst (genRays scene W H).enum
      (fun i => [i * 4, i * 4 + 1, i * 4 + 2, i * 4 + 3])]
  rw [List.enum_map_fst, genRays_length]
  exact range_quad_offsets (W * H)

/-- The byte values of the write quadruples, pixel block by pixel block. -/
theorem renderWrites_map_snd (scene : Scene) (W H : ℕ) :
    (renderWrites scene W H).map Prod.snd =
      (genRays scene W H).enum.flatMap (fun ir =>
        [f32toU8 (some ((trace_ray scene ir.2 3 * (255 : ℝ)).x)),
          f32toU8 (some ((trace_ray scene ir.2 3 * (255 : ℝ)).y)),
          f32toU8 (some ((trace_ray scene ir.2 3 * (255 : ℝ)).z)),
          f32toU8 (some ((trace_ray scene ir.2 3 * (255 : ℝ)).w))]) := by
  unfold renderWrites
  generalize (genRays scene W H).enum = l
  induction l with
  | nil => rfl
  | cons a rest ih => simp [List.flatMap_cons, ih]

/-- `render` is the application of its write sequence to the buffer. -/
theorem render_eq_writes (scene : Scene) (W H : ℕ) (buffer : List ℕ) :
    render scene W H buffer =
      (renderWrites scene W H).foldl (fun b w => b.set w.1 w.2) buffer := by
  unfold render renderWrites
  generalize (genRays scene W H).enum = l
  induction l generalizing buffer with
  | nil => rfl
  | cons a rest ih =>
    rw [List.foldl_cons, List.flatMap_cons, List.foldl_append]
    exact ih (writePixel buffer a.1 (trace_ray scene a.2 3 * (255 : ℝ)))

/-- Positions not named by any write are untouched by the write fold. -/
theorem foldl_set_untouched (writes : List (ℕ × ℕ)) (buf : List ℕ) (p : ℕ)
    (hp : ∀ w ∈ writes, w.1 ≠ p) :
    (writes.foldl (fun b w => b.set w.1 w.2) buf)[p]? = buf[p]? := by
  induction writes generalizing buf with
  | nil => rfl
  | cons w rest ih =>
    rw [List.foldl_cons]
    rw [ih (buf.set w.1 w.2) (fun w' hw' => hp w' (List.mem_cons_of_mem w hw'))]
    exact List.getElem?_set_ne (hp w (List.mem_cons_self w rest))

/-- When the write offsets are exactly `range' s n`, position `p` of the
folded buffer holds the value of the unique write at `p`. -/
theorem foldl_set_range' (writes : List (ℕ × ℕ)) (s n : ℕ)
    (hfst : writes.map Prod.fst = List.range' s n) (buf : List ℕ)
    (hlen : s + n ≤ buf.length) (p : ℕ) (hp1 : s ≤ p) (hp2 : p < s + n) :
    (writes.foldl (fun b w => b.set w.1 w.2) buf)[p]? =
      (writes.map Prod.snd)[p - s]? := by
  induction writes generalizing s n buf with
  | nil =>
    exfalso
    have : List.range' s n = [] := hfst.symm
    simp only [List.range'_eq_nil] at this
    omega
  | cons w rest ih =>
    cases n with
    | zero =>
      exfalso
      simp at hfst
    | succ m =>
      rw [show List.range' s (m + 1) = s :: List.range' (s + 1) m from rfl] at hfst
      simp only [List.map_cons, List.cons.injEq] at hfst
      obtain ⟨hw1, hrest⟩ := hfst
      rw [List.foldl_cons]
      by_cases hps : p = s
      · subst hps
        have huntouched : ∀ w' ∈ rest, w'.1 ≠ p := by
          intro w' hw'
          have hmem : w'.1 ∈ rest.map Prod.fst := List.mem_map_of_mem Prod.fst hw'
          rw [hrest] at hmem
          have := List.mem_range'_1.mp hmem
          omega
        rw [foldl_set_untouched rest (buf.set w.1 w.2) p huntouched]
        rw [hw1]
        rw [List.getElem?_set_self (by omega)]
        simp
      · have hp1' : s + 1 ≤ p := by omega
        have hres := ih (s + 1) m hrest (buf.set w.1 w.2)
          (by rw [List.length_set]; omega) hp1' (by omega)
        rw [hres]
        have hidx : p - s = (p - (s + 1)) + 1 := by omega
        rw [List.map_cons, hidx, List.getElem?_cons_succ]

/-- The byte at offset `4*(y*W + x) + j` of the rendered buffer is byte `j`
of pixel `(x, y)`'s write quadruple. -/
theorem render_byte (scene : Scene) (W H x y j : ℕ) (buffer : List ℕ)
    (hbuf : buffer.length = 4 * (W * H)) (hx : x < W) (hy : y < H) (hj : j < 4) :
    (render scene W H buffer)[4 * (y * W + x) + j]? =
      ([f32toU8 (some ((trace_ray scene (pixelRay scene.camera W H x y) 3 * (255 : ℝ)).x)),
        f32toU8 (some ((trace_ray scene (pixelRay scene.camera W H x y) 3 * (255 : ℝ)).y)),
        f32toU8 (some ((trace_ray scene (pixelRay scene.camera W H x y) 3 * (255 : ℝ)).z)),
        f32toU8 (some ((trace_ray scene (pixelRay scene.camera W H x y) 3 * (255 : ℝ)).w))] :
        List ℕ)[j]? := by
  have e1 : (y + 1) * W = y * W + W := by ring
  have e2 : (y + 1) * W ≤ H * W := Nat.mul_le_mul_right W (Nat.succ_le_of_lt hy)
  have e3 : W * H = H * W := by ring
  have hyx : y * W + x < W * H := by
    have hx' : x < W := hx
    linarith
  have hp : 4 * (y * W + x) + j < W * H * 4 := by
    have h1 : y * W + x + 1 ≤ W * H := hyx
    have h2 : 4 * (y * W + x + 1) ≤ 4 * (W * H) := Nat.mul_le_mul_left 4 h1
    have h3 : W * H * 4 = 4 * (W * H) := by ring
    omega
  rw [render_eq_writes]
  have hfold := foldl_set_range' (renderWrites scene W H) 0 (W * H * 4)
    (by rw [renderWrites_fst_range]; exact List.range_eq_range' (W * H * 4)) buffer
    (by omega) (4 * (y * W + x) + j) (Nat.zero_le _) (by omega)
  rw [hfold, Nat.sub_zero, renderWrites_map_snd]
  have henum : (genRays scene W H).enum[y * W + x]? =
      some (y * W + x, pixelRay scene.camera W H x y) := by
    rw [List.getElem?_enum, genRays_getElem scene W H x y hx hy]
    rfl
  have key := flatMap_getElem_const (genRays scene W H).enum
    (fun ir =>
      [f32toU8 (some ((trace_ray scene ir.2 3 * (255 : ℝ)).x)),
        f32toU8 (some ((trace_ray scene ir.2 3 * (255 : ℝ)).y)),
        f32toU8 (some ((trace_ray scene ir.2 3 * (255 : ℝ)).z)),
        f32toU8 (some ((trace_ray scene ir.2 3 * (255 : ℝ)).w))])
    4 (by intro a _; rfl) (y * W + x) j hj (y * W + x, pixelRay scene.camera W H x y) henum
  exact key

/-- C7: with a buffer of length exactly `W*H*4`, `render` emits the byte
writes in row-major pixel order with write offsets exactly
`0, 1, …, W*H*4 − 1` (so each buffer byte is written exactly once, in
bounds, and distinct pixels' write locations never overlap), and pixel
`(x, y)`'s four bytes land at linear offsets `4*(y*W + x) + 0..3` holding
the traced color's R, G, B, A channels scaled by 255 and cast to bytes. -/
theorem render_row_major_spec (scene : Scene) (W H x y : ℕ) (buffer : List ℕ)
    (hbuf : buffer.length = 4 * (W * H)) (hx : x < W) (hy : y < H) :
    (renderWrites scene W H).map Prod.fst = List.range (W * H * 4) ∧
    (render scene W H buffer)[4 * (y * W + x)]? =
      some (f32toU8 (some ((trace_ray scene (pixelRay scene.camera W H x y) 3 * (255 : ℝ)).x))) ∧
    (render scene W H buffer)[4 * (y * W + x) + 1]? =
      some (f32toU8 (some ((trace_ray scene (pixelRay scene.camera W H x y) 3 * (255 : ℝ)).y))) ∧
    (render scene W H buffer)[4 * (y * W + x) + 2]? =
      some (f32toU8 (some ((trace_ray scene (pixelRay scene.camera W H x y) 3 * (255 : ℝ)).z))) ∧
    (render scene W H buffer)[4 * (y * W + x) + 3]? =
      some (f32toU8 (some ((trace_ray scene (pixelRay scene.camera W H x y) 3 * (255 : ℝ)).w))) := by
  refine ⟨renderWrites_fst_range scene W H, ?_, ?_, ?_, ?_⟩
  · have h := render_byte scene W H x y 0 buffer hbuf hx hy (by norm_num)
    simpa using h
  · have h := render_byte scene W H x y 1 buffer hbuf hx hy (by norm_num)
    simpa using h
  · have h := render_byte scene W H x y 2 buffer hbuf hx hy (by norm_num)
    simpa using h
  · have h := render_byte scene W H x y 3 buffer hbuf hx hy (by norm_num)
    simpa using h

/-- Witness for the row-major write layout on a `1×1` render of the empty
scene into a 4-byte buffer. -/
theorem render_row_major_spec_witness :
    ([9, 9, 9, 9] : List ℕ).length = 4 * (1 * 1) ∧
    (renderWrites sceneEmpty 1 1).map Prod.fst = List.range (1 * 1 * 4) ∧
    (render sceneEmpty 1 1 [9, 9, 9, 9])[4 * (0 * 1 + 0)]? =
      some (f32toU8 (some ((trace_ray sceneEmpty (pixelRay sceneEmpty.camera 1 1 0 0) 3 *
        (255 : ℝ)).x))) :=
  ⟨by decide,
    (render_row_major_spec sceneEmpty 1 1 0 0 [9, 9, 9, 9] (by decide) (by decide)
      (by decide)).1,
    (render_row_major_spec sceneEmpty 1 1 0 0 [9, 9, 9, 9] (by decide) (by decide)
      (by decide)).2.1⟩

/-- C10: the byte conversion `render` applies is Rust's saturating
`f32 as u8` cast of the channel scaled by 255: NaN (`none`) casts to 0,
negatives cast to 0, values above 255 cast to 255, every cast result is at
most 255, and consequently every byte `render` writes into the buffer is in
`[0, 255]` (bytes not bounded by 255 can only be pre-existing buffer
contents). -/
theorem f32_cast_saturates :
    f32toU8 none = 0 ∧
    (∀ x : ℝ, x < 0 → f32toU8 (some x) = 0) ∧
    (∀ x : ℝ, 255 < x → f32toU8 (some x) = 255) ∧
    (∀ v : Option ℝ, f32toU8 v ≤ 255) ∧
    (∀ (scene : Scene) (W H : ℕ) (buffer : List ℕ) (b : ℕ),
      b ∈ render scene W H buffer → b ≤ 255 ∨ b ∈ buffer) := by
  have hle : ∀ v : Option ℝ, f32toU8 v ≤ 255 := by
    intro v
    match v with
    | none => simp [f32toU8]
    | some x =>
      simp only [f32toU8]
      by_cases h1 : x < 0
      · simp [h1]
      · by_cases h2 : 255 < x
        · simp [h1, h2]
        · simp only [if_neg h1, if_neg h2]
          have hx : x ≤ 255 := le_of_not_lt h2
          have hfl : ⌊x⌋ ≤ (255 : ℤ) := by
            have h3 : ⌊x⌋ ≤ ⌊(255 : ℝ)⌋ := Int.floor_le_floor hx
            simpa using h3
          exact Int.toNat_le.mpr (by exact_mod_cast hfl)
  have hwp : ∀ (buf : List ℕ) (i : ℕ) (c : Vec4) (b : ℕ),
      b ∈ writePixel buf i c → b ≤ 255 ∨ b ∈ buf := by
    intro buf i c b hb
    unfold writePixel at hb
    rcases List.mem_or_eq_of_mem_set hb with hb | rfl
    · rcases List.mem_or_eq_of_mem_set hb with hb | rfl
      · rcases List.mem_or_eq_of_mem_set hb with hb | rfl
        · rcases List.mem_or_eq_of_mem_set hb with hb | rfl
          · exact Or.inr hb
          · exact Or.inl (hle _)
        · exact Or.inl (hle _)
      · exact Or.inl (hle _)
    · exact Or.inl (hle _)
  refine ⟨rfl, ?_, ?_, hle, ?_⟩
  · intro x hx
    simp [f32toU8, hx]
  · intro x hx
    have hx' : ¬x < 0 := by linarith
    simp [f32toU8, hx, hx']
  · intro scene W H buffer b hb
    unfold render at hb
    generalize (genRays scene W H).enum = l at hb
    induction l generalizing buffer with
    | nil => exact Or.inr hb
    | cons a rest ih =>
      rw [List.foldl_cons] at hb
      rcases ih (writePixel buffer a.1 (trace_ray scene a.2 3 * (255 : ℝ))) hb with h | h
      · exact Or.inl h
      · exact hwp buffer a.1 _ b h

/-- Witness for the saturating cast: concrete conversions at `-1`, `256` and
NaN, plus the byte bound on a concrete rendered buffer. -/
theorem f32_cast_saturates_witness :
    f32toU8 (some (-1)) = 0 ∧
    f32toU8 (some 256) = 255 ∧
    (7 : ℕ) ∈ render sceneEmpty 0 0 [7] ∧
    ((7 : ℕ) ≤ 255 ∨ (7 : ℕ) ∈ ([7] : List ℕ)) := by
  have hmem : (7 : ℕ) ∈ render sceneEmpty 0 0 [7] := by
    show (7 : ℕ) ∈ ([7] : List ℕ)
    simp
  exact ⟨f32_cast_saturates.2.1 (-1) (by norm_num),
    f32_cast_saturates.2.2.1 256 (by norm_num),
    hmem,
    f32_cast_saturates.2.2.2.2 sceneEmpty 0 0 [7] 7 hmem⟩

/-- The tangent primary ray hits the sphere of `sceneTangent` at `t = 5`. -/
theorem tangent_primary_eval :
    intersect_ray sceneTangent rayTangent none =
      some (5, 0, Shape.sphere ⟨⟨0, 1, 5⟩, 1⟩, matWhite) := by
  rw [intersect_ray]
  have hint : Shape.intersect (Shape.sphere ⟨⟨0, 1, 5⟩, 1⟩) rayTangent = some 5 := by
    show Sphere.intersect ⟨⟨0, 1, 5⟩, 1⟩ rayTangent = some 5
    rw [Sphere.intersect_formula]
    have hdisc : sphereDisc ⟨⟨0, 1, 5⟩, 1⟩ rayTangent = 0 := by
      simp only [sphereDisc, sphereA, sphereB, sphereC, rayTangent, Vec3.dot, Vec3.sub_x,
        Vec3.sub_y, Vec3.sub_z]
      norm_num
    have hb : sphereB ⟨⟨0, 1, 5⟩, 1⟩ rayTangent = -10 := by
      simp only [sphereB, rayTangent, Vec3.dot, Vec3.sub_x, Vec3.sub_y, Vec3.sub_z]
      norm_num
    have ha : sphereA ⟨⟨0, 1, 5⟩, 1⟩ rayTangent = 1 := by
      simp only [sphereA, rayTangent, Vec3.dot]
      norm_num
    rw [hdisc, hb, ha, Real.sqrt_zero]
    norm_num
  have hc : candidate rayTangent none (0, Shape.sphere ⟨⟨0, 1, 5⟩, 1⟩, matWhite) =
      some (5, 0, Shape.sphere ⟨⟨0, 1, 5⟩, 1⟩, matWhite) := by
    simp [candidate, hint]
  rw [show sceneTangent.objects = [(0, Shape.sphere ⟨⟨0, 1, 5⟩, 1⟩, matWhite)] from rfl]
  rw [List.filterMap_cons, hc]
  simp [minByDist, minStep]

/-- The mirror-reflected ray of the tangent hit re-enters the search and hits
the very same sphere (id 0) at `t = 0`. -/
theorem tangent_reflect_eval :
    intersect_ray sceneTangent ⟨⟨0, 0, 5⟩, ⟨0, 0, 1⟩⟩ none =
      some (0, 0, Shape.sphere ⟨⟨0, 1, 5⟩, 1⟩, matWhite) := by
  rw [intersect_ray]
  have hint : Shape.intersect (Shape.sphere ⟨⟨0, 1, 5⟩, 1⟩) ⟨⟨0, 0, 5⟩, ⟨0, 0, 1⟩⟩ =
      some 0 := by
    show Sphere.intersect ⟨⟨0, 1, 5⟩, 1⟩ ⟨⟨0, 0, 5⟩, ⟨0, 0, 1⟩⟩ = some 0
    rw [Sphere.intersect_formula]
    have hdisc : sphereDisc ⟨⟨0, 1, 5⟩, 1⟩ ⟨⟨0, 0, 5⟩, ⟨0, 0, 1⟩⟩ = 0 := by
      simp only [sphereDisc, sphereA, sphereB, sphereC, Vec3.dot, Vec3.sub_x,
        Vec3.sub_y, Vec3.sub_z]
      norm_num
    have hb : sphereB ⟨⟨0, 1, 5⟩, 1⟩ ⟨⟨0, 0, 5⟩, ⟨0, 0, 1⟩⟩ = 0 := by
      simp only [sphereB, Vec3.dot, Vec3.sub_x, Vec3.sub_y, Vec3.sub_z]
      norm_num
    have ha : sphereA ⟨⟨0, 1, 5⟩, 1⟩ ⟨⟨0, 0, 5⟩, ⟨0, 0, 1⟩⟩ = 1 := by
      simp only [sphereA, Vec3.dot]
      norm_num
    rw [hdisc, hb, ha, Real.sqrt_zero]
    norm_num
  have hc : candidate ⟨⟨0, 0, 5⟩, ⟨0, 0, 1⟩⟩ none (0, Shape.sphere ⟨⟨0, 1, 5⟩, 1⟩, matWhite) =
      some (0, 0, Shape.sphere ⟨⟨0, 1, 5⟩, 1⟩, matWhite) := by
    simp [candidate, hint]
  rw [show sceneTangent.objects = [(0, Shape.sphere ⟨⟨0, 1, 5⟩, 1⟩, matWhite)] from rfl]
  rw [List.filterMap_cons, hc]
  simp [minByDist, minStep]

/-- With the only object's id excluded, every search in `sceneTangent`
misses. -/
theorem tangent_excl_eval (r : Ray) : intersect_ray sceneTangent r (some 0) = none := by
  rw [intersect_ray]
  rw [show sceneTangent.objects = [(0, Shape.sphere ⟨⟨0, 1, 5⟩, 1⟩, matWhite)] from rfl]
  rw [List.filterMap_cons]
  rw [show candidate r (some 0) (0, Shape.sphere ⟨⟨0, 1, 5⟩, 1⟩, matWhite) = none by
    simp [candidate]]
  rfl

/-- Normal of the tangent sphere at the tangent point. -/
theorem tangent_normal_eval :
    Shape.get_normal (Shape.sphere ⟨⟨0, 1, 5⟩, 1⟩) ⟨0, 0, 5⟩ = ⟨0, -1, 0⟩ := by
  show Sphere.get_normal ⟨⟨0, 1, 5⟩, 1⟩ ⟨0, 0, 5⟩ = ⟨0, -1, 0⟩
  unfold Sphere.get_normal Vec3.normalize
  have hlen : ((⟨0, 0, 5⟩ : Vec3) - ⟨0, 1, 5⟩).length = 1 := by
    simp only [Vec3.length, Vec3.length_squared, Vec3.dot, Vec3.sub_x, Vec3.sub_y, Vec3.sub_z]
    norm_num [Real.sqrt_one]
  rw [hlen]
  ext <;> simp [Vec3.smul_x, Vec3.smul_y, Vec3.smul_z, Vec3.sub_x, Vec3.sub_y, Vec3.sub_z]

/-- The spot light of `sceneTangent` contributes intensity `1/2` (white) at
the tangent point. -/
theorem tangent_light_eval :
    lightContrib sceneTangent ⟨0, 0, 5⟩ ⟨0, -1, 0⟩ 0 matWhite
      (Light.spot ⟨⟨0, -4, 5⟩, 1⟩) =
      some ⟨1 / 2, 1 / 2, 1 / 2, 1 / 2⟩ := by
  have hnorm : Vec3.normalize ((⟨0, -4, 5⟩ : Vec3) - ⟨0, 0, 5⟩) = ⟨0, -1, 0⟩ := by
    unfold Vec3.normalize
    have hlen : ((⟨0, -4, 5⟩ : Vec3) - ⟨0, 0, 5⟩).length = 4 := by
      simp only [Vec3.length, Vec3.length_squared, Vec3.dot, Vec3.sub_x, Vec3.sub_y,
        Vec3.sub_z]
      norm_num [sqrt_sixteen]
    rw [hlen]
    ext <;> simp [Vec3.smul_x, Vec3.smul_y, Vec3.smul_z, Vec3.sub_x, Vec3.sub_y, Vec3.sub_z]
      <;> norm_num
  have hang : Vec3.angle_between (⟨0, -1, 0⟩ : Vec3) ⟨0, -1, 0⟩ = 0 := by
    simp only [Vec3.angle_between, Vec3.dot, Vec3.length_squared]
    norm_num [Real.sqrt_one, Real.arccos_one]
  have hglr : Light.get_light_ray (Light.spot ⟨⟨0, -4, 5⟩, 1⟩) ⟨0, 0, 5⟩ ⟨0, -1, 0⟩ =
      some ⟨⟨0, 0, 5⟩, ⟨0, -1, 0⟩⟩ := by
    simp only [Light.get_light_ray, hnorm, hang]
    rw [if_pos (by positivity)]
  have hang2 : Vec3.angle_between ((⟨0, -4, 5⟩ : Vec3) - ⟨0, 0, 5⟩) ⟨0, -1, 0⟩ = 0 := by
    simp only [Vec3.angle_between, Vec3.dot, Vec3.length_squared, Vec3.sub_x, Vec3.sub_y,
      Vec3.sub_z]
    norm_num [sqrt_sixteen, Real.arccos_one]
  have hlen2 : ((⟨0, -4, 5⟩ : Vec3) - ⟨0, 0, 5⟩).length = 4 := by
    simp only [Vec3.length, Vec3.length_squared, Vec3.dot, Vec3.sub_x, Vec3.sub_y, Vec3.sub_z]
    norm_num [sqrt_sixteen]
  have hint : Light.intensity (Light.spot ⟨⟨0, -4, 5⟩, 1⟩) ⟨0, 0, 5⟩ ⟨0, -1, 0⟩ = 1 / 2 := by
    simp only [Light.intensity, hlen2, hang2, sqrt_four]
    norm_num
  simp only [lightContrib, hglr]
  rw [show intersect_ray sceneTangent ⟨⟨0, 0, 5⟩, ⟨0, -1, 0⟩⟩ (some 0) = none from
    tangent_excl_eval _]
  simp only [hint]
  rw [if_pos trivial]
  congr 1
  show (1 / 2 : ℝ) • matWhite.color = ⟨1 / 2, 1 / 2, 1 / 2, 1 / 2⟩
  rw [show matWhite.color = ⟨1, 1, 1, 1⟩ from rfl, Vec4.smul_def]
  norm_num

/-- Bounce-0 trace of the reflected tangent ray: it re-hits the emitting
sphere at the same point and is lit to intensity `1/2`. -/
theorem tangent_trace0_eval :
    trace_ray sceneTangent ⟨⟨0, 0, 5⟩, ⟨0, 0, 1⟩⟩ 0 = ⟨1 / 2, 1 / 2, 1 / 2, 1 / 2⟩ := by
  have hpoint : (Ray.mk ⟨0, 0, 5⟩ ⟨0, 0, 1⟩).get_point 0 = (⟨0, 0, 5⟩ : Vec3) := by
    unfold Ray.get_point
    ext <;> simp [Vec3.add_x, Vec3.add_y, Vec3.add_z, Vec3.smul_x, Vec3.smul_y, Vec3.smul_z]
  rw [trace_ray, tangent_reflect_eval]
  simp only [hpoint, tangent_normal_eval]
  rw [show sceneTangent.lights = [Light.spot ⟨⟨0, -4, 5⟩, 1⟩] from rfl]
  rw [List.filterMap_cons, tangent_light_eval]
  simp only [List.filterMap_nil, List.foldl_cons, List.foldl_nil]
  rw [show ((0 : Vec4) + ⟨1 / 2, 1 / 2, 1 / 2, 1 / 2⟩ : Vec4) = ⟨1 / 2, 1 / 2, 1 / 2, 1 / 2⟩ by
    rw [Vec4.zero_eq_mk4, Vec4.add_def]; norm_num]
  rw [show Vec4.min ⟨1 / 2, 1 / 2, 1 / 2, 1 / 2⟩ ⟨1, 1, 1, 1⟩ = ⟨1 / 2, 1 / 2, 1 / 2, 1 / 2⟩ by
    unfold Vec4.min; norm_num [min_def]]

/-- Bounce-1 trace of the tangent ray under the code's `trace_ray`: direct
lighting `1/2` plus half of the (self-hit) reflection's `1/2` gives `3/4`. -/
theorem tangent_trace1_eval :
    trace_ray sceneTangent rayTangent 1 = ⟨3 / 4, 3 / 4, 3 / 4, 3 / 4⟩ := by
  have hpoint : rayTangent.get_point 5 = (⟨0, 0, 5⟩ : Vec3) := by
    unfold Ray.get_point rayTangent
    ext <;> simp [Vec3.add_x, Vec3.add_y, Vec3.add_z, Vec3.smul_x, Vec3.smul_y, Vec3.smul_z]
      <;> norm_num
  have hdir : rayTangent.direction -
      (2 * Vec3.dot rayTangent.direction ⟨0, -1, 0⟩) • (⟨0, -1, 0⟩ : Vec3) =
      (⟨0, 0, 1⟩ : Vec3) := by
    rw [show rayTangent.direction = (⟨0, 0, 1⟩ : Vec3) from rfl]
    ext <;> simp [Vec3.sub_x, Vec3.sub_y, Vec3.sub_z, Vec3.smul_x, Vec3.smul_y, Vec3.smul_z,
      Vec3.dot]
  rw [trace_ray, tangent_primary_eval]
  simp only [hpoint, tangent_normal_eval, hdir]
  rw [show sceneTangent.lights = [Light.spot ⟨⟨0, -4, 5⟩, 1⟩] from rfl]
  rw [List.filterMap_cons, tangent_light_eval]
  simp only [List.filterMap_nil, List.foldl_cons, List.foldl_nil, tangent_trace0_eval]
  rw [show ((0 : Vec4) + ⟨1 / 2, 1 / 2, 1 / 2, 1 / 2⟩ : Vec4) = ⟨1 / 2, 1 / 2, 1 / 2, 1 / 2⟩ by
    rw [Vec4.zero_eq_mk4, Vec4.add_def]; norm_num]
  rw [show ((⟨1 / 2, 1 / 2, 1 / 2, 1 / 2⟩ : Vec4) * (0.5 : ℝ)) = ⟨1 / 4, 1 / 4, 1 / 4, 1 / 4⟩ by
    rw [Vec4.hmul_def]; norm_num]
  rw [show ((⟨1 / 2, 1 / 2, 1 / 2, 1 / 2⟩ : Vec4) + ⟨1 / 4, 1 / 4, 1 / 4, 1 / 4⟩) =
      (⟨3 / 4, 3 / 4, 3 / 4, 3 / 4⟩ : Vec4) by
    rw [Vec4.add_def]; norm_num]
  rw [show Vec4.min ⟨3 / 4, 3 / 4, 3 / 4, 3 / 4⟩ ⟨1, 1, 1, 1⟩ = ⟨3 / 4, 3 / 4, 3 / 4, 3 / 4⟩ by
    unfold Vec4.min; norm_num [min_def]]

/-- Bounce-0 claim-side trace of the reflected ray with the emitter's id
excluded: the search misses and the result is transparent black. -/
theorem tangent_trace0_excl_eval :
    trace_ray_excl sceneTangent ⟨⟨0, 0, 5⟩, ⟨0, 0, 1⟩⟩ (some 0) 0 = 0 := by
  rw [trace_ray_excl, tangent_excl_eval]

/-- Bounce-1 trace of the tangent ray under the claim-side `trace_ray_excl`:
the reflection excludes the emitting sphere, misses, and only the direct
`1/2` remains. -/
theorem tangent_trace1_excl_eval :
    trace_ray_excl sceneTangent rayTangent none 1 = ⟨1 / 2, 1 / 2, 1 / 2, 1 / 2⟩ := by
  have hpoint : rayTangent.get_point 5 = (⟨0, 0, 5⟩ : Vec3) := by
    unfold Ray.get_point rayTangent
    ext <;> simp [Vec3.add_x, Vec3.add_y, Vec3.add_z, Vec3.smul_x, Vec3.smul_y, Vec3.smul_z]
      <;> norm_num
  have hdir : rayTangent.direction -
      (2 * Vec3.dot rayTangent.direction ⟨0, -1, 0⟩) • (⟨0, -1, 0⟩ : Vec3) =
      (⟨0, 0, 1⟩ : Vec3) := by
    rw [show rayTangent.direction = (⟨0, 0, 1⟩ : Vec3) from rfl]
    ext <;> simp [Vec3.sub_x, Vec3.sub_y, Vec3.sub_z, Vec3.smul_x, Vec3.smul_y, Vec3.smul_z,
      Vec3.dot]
  rw [trace_ray_excl, tangent_primary_eval]
  simp only [hpoint, tangent_normal_eval, hdir]
  rw [show sceneTangent.lights = [Light.spot ⟨⟨0, -4, 5⟩, 1⟩] from rfl]
  rw [List.filterMap_cons, tangent_light_eval]
  simp only [List.filterMap_nil, List.foldl_cons, List.foldl_nil, tangent_trace0_excl_eval]
  rw [show ((0 : Vec4) + ⟨1 / 2, 1 / 2, 1 / 2, 1 / 2⟩ : Vec4) = ⟨1 / 2, 1 / 2, 1 / 2, 1 / 2⟩ by
    rw [Vec4.zero_eq_mk4, Vec4.add_def]; norm_num]
  rw [show ((0 : Vec4) * (0.5 : ℝ)) = (0 : Vec4) by
    rw [Vec4.zero_eq_mk4, Vec4.hmul_def]; norm_num]
  rw [Vec4.add_zero]
  rw [show Vec4.min ⟨1 / 2, 1 / 2, 1 / 2, 1 / 2⟩ ⟨1, 1, 1, 1⟩ = ⟨1 / 2, 1 / 2, 1 / 2, 1 / 2⟩ by
    unfold Vec4.min; norm_num [min_def]]

/-- C1 counterexample: for `sceneTangent` and the tangent primary ray, the
hit object has id 0, yet the intersection search the recursive
mirror-reflection trace performs (with no exclusion, by `trace_ray`'s
definition) returns that very object again at `t = 0`; consequently the
code's `trace_ray` yields `3/4` per channel where the claim-side variant
that excludes the emitter from the reflection yields `1/2` — the reflection
trace does not skip the emitting object. -/
theorem reflection_does_not_exclude_emitter :
    intersect_ray sceneTangent rayTangent none =
      some (5, 0, Shape.sphere ⟨⟨0, 1, 5⟩, 1⟩, matWhite) ∧
    intersect_ray sceneTangent ⟨⟨0, 0, 5⟩, ⟨0, 0, 1⟩⟩ none =
      some (0, 0, Shape.sphere ⟨⟨0, 1, 5⟩, 1⟩, matWhite) ∧
    trace_ray sceneTangent rayTangent 1 = ⟨3 / 4, 3 / 4, 3 / 4, 3 / 4⟩ ∧
    trace_ray_excl sceneTangent rayTangent none 1 = ⟨1 / 2, 1 / 2, 1 / 2, 1 / 2⟩ ∧
    trace_ray sceneTangent rayTangent 1 ≠ trace_ray_excl sceneTangent rayTangent none 1 := by
  refine ⟨tangent_primary_eval, tangent_reflect_eval, tangent_trace1_eval,
    tangent_trace1_excl_eval, ?_⟩
  rw [tangent_trace1_eval, tangent_trace1_excl_eval]
  intro h
  have hx := congrArg Vec4.x h
  norm_num at hx

end RayTracing
